import Mathlib

/-!
# Verification of the Kash document-extraction pipeline

A shallow embedding of the core extraction pipeline of the Kash repository:

* `backend/app/services/ai_service.py` — the structured-extraction adapter
  (`AIService.extract_data`) and response parser (`_parse_response`,
  `_extract_json`, `_remove_comments`, `_safe_get`);
* `backend/app/services/document_processor.py` — the extraction orchestrator
  (`DocumentProcessor.process`, `_update_document`, `_create_items`,
  `_parse_date`, `_parse_time`) and its error taxonomy (`ProcessingError`);
* `backend/app/api/routes/documents.py` — the processing queue
  (`DocumentProcessingQueue`) and the reprocess endpoint.

Python strings are modelled as `List Char`; Python `None` as `Option`;
numeric amounts (floats/Decimals) as exact rationals `Rat` (the claims under
study concern only exact values such as 0 and 1, where float and Decimal
arithmetic agree with `Rat`).  Whitespace predicates are modelled over the
ASCII whitespace set (Python's `str.strip` and `re` additionally accept some
Unicode whitespace; none of the claims depends on non-ASCII whitespace).
-/

namespace Kash

/-! ## Characters and Python-style string helpers -/

/-- ASCII whitespace, as accepted by Python's `str.strip()` and by `\s` in
the `re` patterns used by the source (restricted to ASCII). -/
def pySpace (c : Char) : Bool :=
  c = ' ' ∨ c = '\t' ∨ c = '\n' ∨ c = '\r' ∨ c = '\x0b' ∨ c = '\x0c'

/-- Python `str.strip()`: drop leading and trailing whitespace. -/
def pyStrip (cs : List Char) : List Char :=
  ((cs.dropWhile pySpace).reverse.dropWhile pySpace).reverse

/-- Python `str.lower()` restricted to ASCII letters (the only values the
source compares against are ASCII literals such as `"receipt"`). -/
def pyLower (cs : List Char) : List Char := cs.map Char.toLower

/-- Python `str.upper()` restricted to ASCII letters. -/
def pyUpper (cs : List Char) : List Char := cs.map Char.toUpper

/-- Numeric value of a decimal digit character. -/
def dig (c : Char) : Nat := c.toNat - 48

/-! ## Dates and times

`datetime.date` and `datetime.time` values, as produced by
`datetime.strptime(...).date()` / `.time()` in `DocumentProcessor`. -/

structure PDate where
  year : Nat
  month : Nat
  day : Nat
deriving DecidableEq, Repr

structure PTime where
  hour : Nat
  minute : Nat
  second : Nat
deriving DecidableEq, Repr

/-- Gregorian leap year, as in Python's `calendar`/`datetime`. -/
def isLeap (y : Nat) : Bool :=
  (y % 4 = 0 ∧ y % 100 ≠ 0) ∨ y % 400 = 0

/-- Days in a month, used by `datetime.date` to validate the day field. -/
def daysInMonth (y m : Nat) : Nat :=
  if m = 2 then (if isLeap y then 29 else 28)
  else if m = 4 ∨ m = 6 ∨ m = 9 ∨ m = 11 then 30
  else 31

/-! ## `strptime` field parsers

CPython's `_strptime` compiles `%d` to the regex `3[01]|[12]\d|0[1-9]|[1-9]`,
`%m` to `1[0-2]|0[1-9]|[1-9]`, `%Y` to `\d\d\d\d`, `%H` to `2[0-3]|[0-1]\d|\d`
and `%M`/`%S` to `[0-5]\d|\d`, then requires the whole (stripped) input to be
consumed and validates the resulting calendar date via `datetime.date`.
In every format used by the source, numeric fields are separated by non-digit
literals (or end the string), so the regex backtracking from the two-digit to
the one-digit alternative can never rescue a failed match; the translations
below therefore try the two-digit reading first and fall back to one digit
only when the second character is not a digit. -/

/-- `%d`: day field, 1–31, one or two digits. -/
def readDay : List Char → Option (Nat × List Char)
  | c1 :: c2 :: rest =>
    if c1.isDigit ∧ c2.isDigit then
      let v := 10 * dig c1 + dig c2
      if 1 ≤ v ∧ v ≤ 31 then some (v, rest) else none
    else if c1.isDigit ∧ 1 ≤ dig c1 then some (dig c1, c2 :: rest)
    else none
  | [c1] => if c1.isDigit ∧ 1 ≤ dig c1 then some (dig c1, []) else none
  | [] => none

/-- `%m`: month field, 1–12, one or two digits. -/
def readMonth : List Char → Option (Nat × List Char)
  | c1 :: c2 :: rest =>
    if c1.isDigit ∧ c2.isDigit then
      let v := 10 * dig c1 + dig c2
      if 1 ≤ v ∧ v ≤ 12 then some (v, rest) else none
    else if c1.isDigit ∧ 1 ≤ dig c1 then some (dig c1, c2 :: rest)
    else none
  | [c1] => if c1.isDigit ∧ 1 ≤ dig c1 then some (dig c1, []) else none
  | [] => none

/-- `%Y`: year field, exactly four digits. -/
def readYear : List Char → Option (Nat × List Char)
  | c1 :: c2 :: c3 :: c4 :: rest =>
    if c1.isDigit ∧ c2.isDigit ∧ c3.isDigit ∧ c4.isDigit then
      some (1000 * dig c1 + 100 * dig c2 + 10 * dig c3 + dig c4, rest)
    else none
  | _ => none

/-- `%H`: hour field, 0–23, one or two digits. -/
def readHour : List Char → Option (Nat × List Char)
  | c1 :: c2 :: rest =>
    if c1.isDigit ∧ c2.isDigit then
      let v := 10 * dig c1 + dig c2
      if v ≤ 23 then some (v, rest) else none
    else if c1.isDigit then some (dig c1, c2 :: rest)
    else none
  | [c1] => if c1.isDigit then some (dig c1, []) else none
  | [] => none

/-- `%M` / `%S`: minute or second field, 0–59, one or two digits. -/
def readMinSec : List Char → Option (Nat × List Char)
  | c1 :: c2 :: rest =>
    if c1.isDigit ∧ c2.isDigit then
      let v := 10 * dig c1 + dig c2
      if v ≤ 59 then some (v, rest) else none
    else if c1.isDigit then some (dig c1, c2 :: rest)
    else none
  | [c1] => if c1.isDigit then some (dig c1, []) else none
  | [] => none

/-- A literal separator character in a `strptime` format. -/
def readLit (c : Char) : List Char → Option (List Char)
  | d :: rest => if d = c then some rest else none
  | [] => none

/-- `datetime.date(y, m, d)` validity check (year 1–9999; the field regexes
already bound month and day from below and above). -/
def validDate (y m d : Nat) : Bool :=
  1 ≤ y ∧ d ≤ daysInMonth y m

/-- One `strptime` attempt against format `%Y<sep>%m<sep>%d`. -/
def tryYMD (sep : Char) (cs : List Char) : Option PDate := do
  let (y, cs) ← readYear cs
  let cs ← readLit sep cs
  let (m, cs) ← readMonth cs
  let cs ← readLit sep cs
  let (d, cs) ← readDay cs
  if cs = [] ∧ validDate y m d then some ⟨y, m, d⟩ else none

/-- One `strptime` attempt against format `%d<sep>%m<sep>%Y`. -/
def tryDMY (sep : Char) (cs : List Char) : Option PDate := do
  let (d, cs) ← readDay cs
  let cs ← readLit sep cs
  let (m, cs) ← readMonth cs
  let cs ← readLit sep cs
  let (y, cs) ← readYear cs
  if cs = [] ∧ validDate y m d then some ⟨y, m, d⟩ else none

/-- `DocumentProcessor._parse_date`: strip the input, then try the formats
`%Y-%m-%d`, `%d/%m/%Y`, `%d-%m-%Y`, `%d.%m.%Y`, `%Y/%m/%d` in order, first
match wins, `None` on failure.  (The guard `if not date_str` at the head of
the Python function only matters for the empty string, on which every format
fails anyway.) -/
def parseDate (cs : List Char) : Option PDate :=
  let s := pyStrip cs
  (tryYMD '-' s).orElse fun _ =>
  (tryDMY '/' s).orElse fun _ =>
  (tryDMY '-' s).orElse fun _ =>
  (tryDMY '.' s).orElse fun _ =>
  tryYMD '/' s

/-- One `strptime` attempt against format `%H:%M`. -/
def tryHM (cs : List Char) : Option PTime := do
  let (h, cs) ← readHour cs
  let cs ← readLit ':' cs
  let (m, cs) ← readMinSec cs
  if cs = [] then some ⟨h, m, 0⟩ else none

/-- One `strptime` attempt against format `%H:%M:%S`. -/
def tryHMS (cs : List Char) : Option PTime := do
  let (h, cs) ← readHour cs
  let cs ← readLit ':' cs
  let (m, cs) ← readMinSec cs
  let cs ← readLit ':' cs
  let (s, cs) ← readMinSec cs
  if cs = [] then some ⟨h, m, s⟩ else none

/-- One `strptime` attempt against format `%Hh%M` (e.g. `14h30`). -/
def tryHhM (cs : List Char) : Option PTime := do
  let (h, cs) ← readHour cs
  let cs ← readLit 'h' cs
  let (m, cs) ← readMinSec cs
  if cs = [] then some ⟨h, m, 0⟩ else none

/-- `DocumentProcessor._parse_time`: strip, then `%H:%M`, `%H:%M:%S`,
`%Hh%M` in order. -/
def parseTime (cs : List Char) : Option PTime :=
  let s := pyStrip cs
  (tryHM s).orElse fun _ => (tryHMS s).orElse fun _ => tryHhM s

/-! ## JSON values and a model of Python's `json.loads`

`_parse_response` feeds the recovered text to `json.loads`.  We model JSON
values with numbers as exact rationals (CPython parses them to `int`/`float`;
the claims under study only involve exactly-representable values) and objects
as association lists in insertion order, where a repeated key shadows earlier
ones exactly as repeated keys do in a Python `dict`.  Python's tolerated
non-standard constants (`NaN`, `Infinity`) and surrogate-pair decoding in
`\uXXXX` escapes are not modelled; no claim exercises them. -/

inductive Json where
  | null : Json
  | bool (b : Bool) : Json
  | num (q : Rat) : Json
  | str (s : String) : Json
  | arr (elems : List Json) : Json
  | obj (kvs : List (String × Json)) : Json

/-- JSON insignificant whitespace (RFC 8259 / CPython `json`). -/
def jsonWs (c : Char) : Bool :=
  c = ' ' ∨ c = '\t' ∨ c = '\n' ∨ c = '\r'

/-- Skip insignificant whitespace. -/
def skipWs : List Char → List Char
  | [] => []
  | c :: rest => if jsonWs c then skipWs rest else c :: rest

/-- Value of a hexadecimal digit. -/
def hexVal (c : Char) : Option Nat :=
  if '0' ≤ c ∧ c ≤ '9' then some (c.toNat - 48)
  else if 'a' ≤ c ∧ c ≤ 'f' then some (c.toNat - 87)
  else if 'A' ≤ c ∧ c ≤ 'F' then some (c.toNat - 55)
  else none

/-- Body of a JSON string literal, after the opening quote: returns the
decoded contents and the text after the closing quote.  CPython's strict mode
rejects raw control characters below `0x20` inside string literals. -/
def parseStrBody (acc : List Char) : List Char → Option (List Char × List Char)
  | [] => none
  | '"' :: rest => some (acc.reverse, rest)
  | '\\' :: e :: rest =>
    if e = '"' then parseStrBody ('"' :: acc) rest
    else if e = '\\' then parseStrBody ('\\' :: acc) rest
    else if e = '/' then parseStrBody ('/' :: acc) rest
    else if e = 'b' then parseStrBody ('\x08' :: acc) rest
    else if e = 'f' then parseStrBody ('\x0c' :: acc) rest
    else if e = 'n' then parseStrBody ('\n' :: acc) rest
    else if e = 'r' then parseStrBody ('\r' :: acc) rest
    else if e = 't' then parseStrBody ('\t' :: acc) rest
    else if e = 'u' then
      match rest with
      | h1 :: h2 :: h3 :: h4 :: rest2 =>
        match hexVal h1, hexVal h2, hexVal h3, hexVal h4 with
        | some v1, some v2, some v3, some v4 =>
          parseStrBody (Char.ofNat (4096 * v1 + 256 * v2 + 16 * v3 + v4) :: acc) rest2
        | _, _, _, _ => none
      | _ => none
    else none
  | c :: rest => if c.toNat < 32 then none else parseStrBody (c :: acc) rest

/-- Natural-number value of a digit run. -/
def digitsToNat (ds : List Char) : Nat := ds.foldl (fun a c => 10 * a + dig c) 0

/-- `10 ^ k` as a rational. -/
def pow10 (k : Nat) : Rat := ((10 ^ k : Nat) : Rat)

/-- A JSON number (RFC 8259 grammar, as enforced by CPython's `json`):
optional minus, integer part without leading zeros, optional fraction,
optional exponent. -/
def parseNum (cs : List Char) : Option (Rat × List Char) :=
  let (neg, cs1) := match cs with
    | '-' :: r => (true, r)
    | _ => (false, cs)
  let intDigits := cs1.takeWhile Char.isDigit
  let rest1 := cs1.dropWhile Char.isDigit
  if intDigits = [] then none
  else if 2 ≤ intDigits.length ∧ intDigits.head? = some '0' then none
  else
    let step2 : Option (List Char × List Char) :=
      match rest1 with
      | '.' :: r2 =>
        let fd := r2.takeWhile Char.isDigit
        if fd = [] then none else some (fd, r2.dropWhile Char.isDigit)
      | _ => some ([], rest1)
    match step2 with
    | none => none
    | some (fracDigits, rest2) =>
      let step3 : Option (Bool × List Char × List Char) :=
        match rest2 with
        | 'e' :: r3 =>
          match r3 with
          | '-' :: r4 => let ed := r4.takeWhile Char.isDigit
                         if ed = [] then none else some (true, ed, r4.dropWhile Char.isDigit)
          | '+' :: r4 => let ed := r4.takeWhile Char.isDigit
                         if ed = [] then none else some (false, ed, r4.dropWhile Char.isDigit)
          | _ => let ed := r3.takeWhile Char.isDigit
                 if ed = [] then none else some (false, ed, r3.dropWhile Char.isDigit)
        | 'E' :: r3 =>
          match r3 with
          | '-' :: r4 => let ed := r4.takeWhile Char.isDigit
                         if ed = [] then none else some (true, ed, r4.dropWhile Char.isDigit)
          | '+' :: r4 => let ed := r4.takeWhile Char.isDigit
                         if ed = [] then none else some (false, ed, r4.dropWhile Char.isDigit)
          | _ => let ed := r3.takeWhile Char.isDigit
                 if ed = [] then none else some (false, ed, r3.dropWhile Char.isDigit)
        | _ => some (false, [], rest2)
      match step3 with
      | none => none
      | some (expNeg, expDigits, rest3) =>
        let mant : Int :=
          (if neg then -1 else 1) *
            ((digitsToNat intDigits : Int) * (10 ^ fracDigits.length : Nat) +
              (digitsToNat fracDigits : Int))
        let base : Rat := (mant : Rat) / pow10 fracDigits.length
        let e := digitsToNat expDigits
        let v : Rat := if expNeg then base / pow10 e else base * pow10 e
        some (v, rest3)

mutual

/-- One JSON value, fuel-indexed recursive-descent, mirroring CPython's
`json` scanner: leading whitespace is skipped, then the value is dispatched
on its first character. -/
def parseValue : Nat → List Char → Option (Json × List Char)
  | 0, _ => none
  | fuel + 1, cs =>
    match skipWs cs with
    | [] => none
    | c :: rest =>
      if c = '\x7b' then
        match skipWs rest with
        | '\x7d' :: r => some (Json.obj [], r)
        | cs2 => parseMembers fuel cs2 []
      else if c = '[' then
        match skipWs rest with
        | ']' :: r => some (Json.arr [], r)
        | cs2 => parseElems fuel cs2 []
      else if c = '"' then
        match parseStrBody [] rest with
        | some (s, r) => some (Json.str ⟨s⟩, r)
        | none => none
      else if c = 't' then
        match rest with
        | 'r' :: 'u' :: 'e' :: r => some (Json.bool true, r)
        | _ => none
      else if c = 'f' then
        match rest with
        | 'a' :: 'l' :: 's' :: 'e' :: r => some (Json.bool false, r)
        | _ => none
      else if c = 'n' then
        match rest with
        | 'u' :: 'l' :: 'l' :: r => some (Json.null, r)
        | _ => none
      else
        match parseNum (c :: rest) with
        | some (q, r) => some (Json.num q, r)
        | none => none

/-- Members of a JSON object, after at least one member is known to follow. -/
def parseMembers : Nat → List Char → List (String × Json) → Option (Json × List Char)
  | 0, _, _ => none
  | fuel + 1, cs, acc =>
    match cs with
    | '"' :: rest =>
      match parseStrBody [] rest with
      | none => none
      | some (key, rest1) =>
        match skipWs rest1 with
        | ':' :: rest2 =>
          match parseValue fuel (skipWs rest2) with
          | none => none
          | some (v, rest3) =>
            match skipWs rest3 with
            | ',' :: rest4 => parseMembers fuel (skipWs rest4) ((⟨key⟩, v) :: acc)
            | '\x7d' :: rest4 => some (Json.obj ((⟨key⟩, v) :: acc).reverse, rest4)
            | _ => none
        | _ => none
    | _ => none

/-- Elements of a JSON array, after at least one element is known to follow. -/
def parseElems : Nat → List Char → List Json → Option (Json × List Char)
  | 0, _, _ => none
  | fuel + 1, cs, acc =>
    match parseValue fuel cs with
    | none => none
    | some (v, rest) =>
      match skipWs rest with
      | ',' :: rest2 => parseElems fuel (skipWs rest2) (v :: acc)
      | ']' :: rest2 => some (Json.arr (v :: acc).reverse, rest2)
      | _ => none

end

/-- `json.loads`: parse one value and require only whitespace after it
(CPython raises `Extra data` otherwise).  The fuel `2 * length + 2` dominates
the recursion depth: every two nested calls consume at least one character. -/
def jsonLoads (cs : List Char) : Option Json :=
  match parseValue (2 * cs.length + 2) cs with
  | some (v, rest) => if skipWs rest = [] then some v else none
  | none => none

/-- Python `dict.get` on the object built by `json.loads`: with repeated
keys the later binding wins, as in a Python `dict`. -/
def jget : List (String × Json) → String → Option Json
  | [], _ => none
  | (k', v) :: rest, k =>
    match jget rest k with
    | some v' => some v'
    | none => if k' = k then some v else none

/-! ## `ExtractionResult` and defensive field extraction

The dataclasses `ExtractedItem` and `ExtractionResult` of `ai_service.py`.
Optional Python fields are `Option`; `currency` and `is_income` have the
dataclass defaults `"EUR"` and `False` and are non-optional, exactly as in
the source. -/

structure ExtractedItem where
  name : List Char
  quantity : Rat
  unit_price : Option Rat
  total_price : Option Rat
deriving DecidableEq, Repr

structure ExtractionResult where
  doc_type : Option (List Char) := none
  date : Option (List Char) := none
  time : Option (List Char) := none
  merchant : Option (List Char) := none
  location : Option (List Char) := none
  items : List ExtractedItem := []
  total_amount : Option Rat := none
  currency : List Char := ['E', 'U', 'R']
  is_income : Bool := false
  suggested_tags : List (List Char) := []
  success : Bool := false
  error : Option (List Char) := none
  raw_response : Option (List Char) := none
deriving DecidableEq, Repr

/-- `AIService._safe_get(data, key, str)`: the value, if present and a
string (`None` and non-string values degrade to absent). -/
def safeGetStr (kvs : List (String × Json)) (k : String) : Option (List Char) :=
  match jget kvs k with
  | some (Json.str s) => some s.data
  | _ => none

/-- `AIService._safe_get(data, key, (int, float))`: the value, if present and
numeric.  (Python's `bool` being a subclass of `int` is a corner the model
does not reproduce; no claim exercises a boolean in a numeric field.) -/
def safeGetNum (kvs : List (String × Json)) (k : String) : Option Rat :=
  match jget kvs k with
  | some (Json.num q) => some q
  | _ => none

/-- `AIService._safe_get(data, key, bool)`. -/
def safeGetBool (kvs : List (String × Json)) (k : String) : Option Bool :=
  match jget kvs k with
  | some (Json.bool b) => some b
  | _ => none

/-- Python `x or default` for an optional string: `None` and the empty
string are falsy and select the default. -/
def pyOrStr (v : Option (List Char)) (d : List Char) : List Char :=
  match v with
  | some s => if s = [] then d else s
  | none => d

/-! ## `AIService._remove_comments`

Three `re.sub` passes in order: `//[^\n]*` → `""`, `/\*.*?\*/` → `""`
(DOTALL), and `,\s*([\]}])` → `\1`.  Each pass is translated as the
left-to-right, non-overlapping scan that `re.sub` performs; the scan resumes
after the matched region and never rescans replacement output. -/

/-- The suffix after the first `*/`, if any — the lookahead with which the
lazy `/\*.*?\*/` either finds its closing delimiter or fails to match. -/
def afterStarSlash : List Char → Option (List Char)
  | [] => none
  | [_] => none
  | c :: d :: rest =>
    if c = '*' ∧ d = '/' then some rest else afterStarSlash (d :: rest)

/-- Pass 1, `re.sub(r'//[^\n]*', '', s)`: at each `//`, delete up to (not
including) the next newline.  Single pass; the flag is true while inside a
comment being deleted. -/
def rlcGo : Bool → List Char → List Char
  | _, [] => []
  | true, c :: rest => if c = '\n' then c :: rlcGo false rest else rlcGo true rest
  | false, c :: rest =>
    if c = '/' ∧ rest.head? = some '/' then rlcGo true rest
    else c :: rlcGo false rest

def rlc (cs : List Char) : List Char := rlcGo false cs

/-- Pass 2, `re.sub(r'/\*.*?\*/', '', s, flags=re.DOTALL)`: at each `/*`
that has a later `*/`, delete through the nearest `*/`; a `/*` with no
closing `*/` does not match and is kept.  Mode 0 scans normally; a match
moves through mode 3 (at the opening `*`) into mode 1 (inside the comment,
looking for `*/` strictly after the opener) and mode 2 (at the closing `/`). -/
def rbcGo : Nat → List Char → List Char
  | _, [] => []
  | 0, c :: rest =>
    if c = '/' ∧ rest.head? = some '*' ∧ (afterStarSlash rest.tail).isSome then
      rbcGo 3 rest
    else c :: rbcGo 0 rest
  | 3, _ :: rest => rbcGo 1 rest
  | 1, c :: rest => if c = '*' ∧ rest.head? = some '/' then rbcGo 2 rest else rbcGo 1 rest
  | _, _ :: rest => rbcGo 0 rest

def rbc (cs : List Char) : List Char := rbcGo 0 cs

/-- Pass 3, `re.sub(r',\s*([\]}])', r'\1', s)`: a comma followed by optional
whitespace and a closing bracket is replaced by the bracket alone; the scan
resumes after the bracket.  The flag is true while deleting the whitespace
run of a match. -/
def stcGo : Bool → List Char → List Char
  | _, [] => []
  | true, c :: rest => if pySpace c then stcGo true rest else c :: stcGo false rest
  | false, c :: rest =>
    if c = ',' ∧ ((rest.dropWhile pySpace).head? = some ']' ∨
        (rest.dropWhile pySpace).head? = some '\x7d') then
      stcGo true rest
    else c :: stcGo false rest

def stc (cs : List Char) : List Char := stcGo false cs

/-- `AIService._remove_comments`: the three passes in source order. -/
def removeComments (cs : List Char) : List Char := stc (rbc (rlc cs))

/-! ## `AIService._extract_json`

Case 1 is `re.search(r'```(?:json)?\s*\n?(.*?)\n?```', text, re.DOTALL)`.
The translation below follows the regex semantics step by step: the match
starts at the first triple backtick, the optional literal `json` is consumed
greedily, `\s*` consumes a maximal whitespace run (after which `\n?` is
necessarily empty), and the lazy group ends at the first position where
either `\n` + three backticks or three backticks alone follow (the engine
prefers consuming the `\n`).  This is exact for texts in which the first
triple backtick is followed somewhere by a closing one, and for texts with
no triple backtick at all — which covers every response considered in this
development.  Case 2 scans from the first `{` counting brace depth, exactly
as the Python loop does. -/

/-- The suffix after the first occurrence of three backticks, if any. -/
def findTriple : List Char → Option (List Char)
  | a :: b :: c :: rest =>
    if a = '`' ∧ b = '`' ∧ c = '`' then some rest
    else findTriple (b :: c :: rest)
  | _ => none

/-- The lazy capture of `(.*?)\n?```' : accumulate characters until the
closing fence, preferring to attribute a final newline to the `\n?`. -/
def lazyCapture (acc : List Char) : List Char → Option (List Char)
  | [] => none
  | c :: rest =>
    if c = '\n' ∧ rest.take 3 = ['`', '`', '`'] then some acc.reverse
    else if c = '`' ∧ rest.take 2 = ['`', '`'] then some acc.reverse
    else lazyCapture (c :: acc) rest

/-- The captured group of the fenced-code-block regex, if the text contains
a fenced block. -/
def fenceSearch (cs : List Char) : Option (List Char) :=
  match findTriple cs with
  | none => none
  | some rest =>
    let rest1 := if rest.take 4 = ['j', 's', 'o', 'n'] then rest.drop 4 else rest
    lazyCapture [] (rest1.dropWhile pySpace)

/-- Index of the first `{`, as Python `str.find` (None for absent). -/
def findBraceIdx : List Char → Option Nat
  | [] => none
  | c :: rest =>
    if c = '\x7b' then some 0 else (findBraceIdx rest).map (· + 1)

/-- The brace-depth loop of `_extract_json`: starting depth `d` at index
`i`, the index of the `}` that brings the depth to zero, if any. -/
def findCloseGo : List Char → Nat → Int → Option Nat
  | [], _, _ => none
  | c :: rest, i, d =>
    if c = '\x7b' then findCloseGo rest (i + 1) (d + 1)
    else if c = '\x7d' then
      (if d - 1 = 0 then some i else findCloseGo rest (i + 1) (d - 1))
    else findCloseGo rest (i + 1) d

/-- Index (relative to the first `{`) of its matching `}` by depth count. -/
def findClose (cs : List Char) : Option Nat := findCloseGo cs 0 0

/-- `AIService._extract_json`: fenced block first, then brace matching;
either way the recovered region goes through `_remove_comments`. -/
def extractJson (cs : List Char) : Option (List Char) :=
  match fenceSearch cs with
  | some cap => some (removeComments (pyStrip cap))
  | none =>
    match findBraceIdx cs with
    | none => none
    | some i =>
      match findClose (cs.drop i) with
      | none => none
      | some j => some (removeComments ((cs.drop i).take (j + 1)))

/-! ## `AIService._parse_response` and `extract_data` -/

/-- An unsuccessful `ExtractionResult`. -/
def failResult (err : List Char) (raw : Option (List Char)) : ExtractionResult :=
  { success := false, error := some err, raw_response := raw }

/-- One entry of the `items` loop of `_parse_response`: only `dict` entries
are kept; a missing or empty name falls back to the placeholder, a missing
or zero quantity to 1 (Python `or`). -/
def buildItem : Json → Option ExtractedItem
  | Json.obj ikvs =>
    some
      { name := pyOrStr (safeGetStr ikvs "name") "Article inconnu".data
        quantity :=
          match safeGetNum ikvs "quantity" with
          | some q => if q = 0 then 1 else q
          | none => 1
        unit_price := safeGetNum ikvs "unit_price"
        total_price := safeGetNum ikvs "total_price" }
  | _ => none

/-- The field-extraction part of `_parse_response`, applied to the parsed
JSON object. -/
def buildResult (kvs : List (String × Json)) (raw : List Char) : ExtractionResult :=
  { success := true
    raw_response := some raw
    error := none
    doc_type := safeGetStr kvs "doc_type"
    date := safeGetStr kvs "date"
    time := safeGetStr kvs "time"
    merchant := safeGetStr kvs "merchant"
    location := safeGetStr kvs "location"
    total_amount := safeGetNum kvs "total_amount"
    currency := pyOrStr (safeGetStr kvs "currency") ['E', 'U', 'R']
    is_income := (safeGetBool kvs "is_income").getD false
    items :=
      match jget kvs "items" with
      | some (Json.arr xs) => xs.filterMap buildItem
      | _ => []
    suggested_tags :=
      match jget kvs "suggested_tags" with
      | some (Json.arr xs) =>
        xs.filterMap fun j =>
          match j with
          | Json.str s => some s.data
          | _ => none
      | _ => [] }

/-- `AIService._parse_response`.  The `JSON invalide` message carries the
`json.JSONDecodeError` text in the source; the model keeps the fixed prefix
only.  A top-level JSON value that is not an object makes the Python code
raise `AttributeError` out of `_parse_response`; the sole caller converts it
to the `Erreur inattendue` failure (without `raw_response`), which is folded
in here. -/
def parseResponse (text : List Char) : ExtractionResult :=
  match extractJson (pyStrip text) with
  | none => failResult "Impossible d'extraire le JSON de la réponse".data (some text)
  | some js =>
    if js = [] then failResult "Impossible d'extraire le JSON de la réponse".data (some text)
    else
      match jsonLoads js with
      | none => failResult "JSON invalide".data (some text)
      | some (Json.obj kvs) => buildResult kvs text
      | some _ => failResult "Erreur inattendue".data none

/-- The possible outcomes of the single HTTP call to the generative backend
(`AIService._call_ollama`): a reply body, a connection error, a timeout, or
a non-2xx status (which `raise_for_status` turns into an exception caught by
the generic handler). -/
inductive CallOutcome where
  | reply (text : List Char)
  | connectError
  | timeoutError
  | httpStatusError
deriving DecidableEq, Repr

/-- `AIService.extract_data`, as a function of the OCR text and the network
outcome.  The second component records whether the HTTP call to the backend
was issued at all.  Host names and exception details interpolated into the
error messages are abstracted away. -/
def extractData (ocrText : List Char) (call : CallOutcome) : ExtractionResult × Bool :=
  if ocrText = [] ∨ pyStrip ocrText = [] then
    (failResult "Texte OCR vide ou invalide".data none, false)
  else
    match call with
    | CallOutcome.reply t =>
      if t = [] then (failResult "Réponse vide d'Ollama".data none, true)
      else (parseResponse t, true)
    | CallOutcome.connectError =>
      (failResult "Impossible de se connecter à Ollama".data none, true)
    | CallOutcome.timeoutError =>
      (failResult "Timeout lors de l'appel à Ollama".data none, true)
    | CallOutcome.httpStatusError =>
      (failResult "Erreur inattendue".data none, true)

/-! ## The persistent `Document` and `Item` rows

The columns of `app/models/document.py` and `app/models/item.py` that the
pipeline reads or writes.  Columns the pipeline never touches (file path,
recurring-document fields, sync flags, tags) are omitted; `created_at` keeps
only its date part, which is all `process` uses (`document.created_at.date()`),
and is optional to mirror the `and document.created_at` guard. -/

structure Doc where
  doc_type : Option (List Char)
  date : Option PDate
  time : Option PTime
  merchant : Option (List Char)
  location : Option (List Char)
  total_amount : Option Rat
  currency : Option (List Char)
  is_income : Bool
  ocr_raw_text : Option (List Char)
  ocr_confidence : Option Rat
  processing_status : List Char
  processing_error : Option (List Char)
  created_at : Option PDate
deriving DecidableEq, Repr

structure Item where
  name : List Char
  quantity : Rat
  unit_price : Option Rat
  total_price : Option Rat
deriving DecidableEq, Repr

/-- The fixed set of accepted document kinds in `_update_document`. -/
def validTypes : List (List Char) :=
  ["receipt".data, "invoice".data, "payslip".data, "other".data]

/-- `DocumentProcessor._update_document`: merge the extracted fields onto
the document.  Each guard reproduces the Python truthiness test of the
corresponding field (`None` and the empty string are falsy;
`total_amount` alone is compared against `None`), and `is_income` is
assigned unconditionally, as in the source. -/
def updateDocument (doc : Doc) (ai : ExtractionResult) : Doc :=
  { doc with
    doc_type :=
      match ai.doc_type with
      | some t =>
        if t ≠ [] ∧ pyLower t ∈ validTypes then some (pyLower t) else doc.doc_type
      | none => doc.doc_type
    date :=
      match ai.date with
      | some ds =>
        if ds ≠ [] then
          match parseDate ds with
          | some d => some d
          | none => doc.date
        else doc.date
      | none => doc.date
    time :=
      match ai.time with
      | some ts =>
        if ts ≠ [] then
          match parseTime ts with
          | some t => some t
          | none => doc.time
        else doc.time
      | none => doc.time
    merchant :=
      match ai.merchant with
      | some m => if m ≠ [] then some (m.take 255) else doc.merchant
      | none => doc.merchant
    location :=
      match ai.location with
      | some l => if l ≠ [] then some (l.take 255) else doc.location
      | none => doc.location
    total_amount :=
      match ai.total_amount with
      | some a => some a
      | none => doc.total_amount
    currency :=
      if ai.currency ≠ [] then some (pyUpper (ai.currency.take 3)) else doc.currency
    is_income := ai.is_income }

/-- One row built by `DocumentProcessor._create_items`: truthiness guards
turn a zero quantity into 1 (`quantity or 1`) and a `None`-or-zero price
into NULL (`Decimal(...) if price else None`); an absent or empty name
falls back to the placeholder. -/
def storeItem (e : ExtractedItem) : Item :=
  { name := if e.name ≠ [] then e.name.take 255 else "Article inconnu".data
    quantity := if e.quantity = 0 then 1 else e.quantity
    unit_price :=
      match e.unit_price with
      | some p => if p = 0 then none else some p
      | none => none
    total_price :=
      match e.total_price with
      | some p => if p = 0 then none else some p
      | none => none }

/-- `DocumentProcessor._create_items`: existing items are deleted and the
extracted ones inserted, so the document's item rows after the call are
exactly the stored extracted items. -/
def createItems (ai : ExtractionResult) : List Item := ai.items.map storeItem

/-- `ProcessingError` of `document_processor.py`. -/
structure ProcErr where
  message : List Char
  step : List Char
  recoverable : Bool
deriving DecidableEq, Repr

/-- Outcome of the OCR adapter call (`OCRResult`): text plus confidence, or
a typed failure.  The adapter never throws past its boundary. -/
inductive OcrOutcome where
  | ok (text : List Char) (confidence : Rat)
  | fail (err : List Char)
deriving DecidableEq, Repr

/-- The document row together with its item rows — the state one pipeline
run mutates. -/
structure PState where
  doc : Doc
  items : List Item
deriving DecidableEq, Repr

/-- `DocumentProcessor.process` for a document that exists, as a function
of the two external-call outcomes: returns the state as left in the
database (partial writes included — the source commits after each step)
and the `ProcessingError`, if one was raised.  Tag suggestion assignment
(step 7) only touches tag associations and is not modelled; the
`round(..., 2)` on the confidence and the `float→str→Decimal` conversions
are identities on the exact rationals of the model. -/
def processRun (st : PState) (ocr : OcrOutcome) (call : CallOutcome) :
    PState × Option ProcErr :=
  match ocr with
  | OcrOutcome.fail e =>
    ({ st with
        doc :=
          { st.doc with
              ocr_raw_text := some ("[ERREUR OCR] ".data ++ e)
              ocr_confidence := some 0 } },
      some ⟨pyOrStr (some e) "Erreur OCR inconnue".data, "ocr".data, true⟩)
  | OcrOutcome.ok text conf =>
    let doc1 := { st.doc with ocr_raw_text := some text, ocr_confidence := some conf }
    let ai := (extractData text call).1
    if ai.success then
      let doc2 := updateDocument doc1 ai
      let doc3 :=
        match doc2.date, doc2.created_at with
        | none, some c => { doc2 with date := some c }
        | _, _ => doc2
      ({ doc := doc3, items := createItems ai }, none)
    else
      ({ st with doc := doc1 },
        some ⟨pyOrStr ai.error "Erreur IA inconnue".data, "ai".data, true⟩)

/-- `DocumentProcessingQueue._process_single_document`: set the status to
`processing`, run the pipeline, then set `completed` (clearing the error
text) or `error` (recording `step: message`).  The second component is the
log of `processing_status` writes of the run, as `(before, after)` pairs. -/
def queueRun (st : PState) (ocr : OcrOutcome) (call : CallOutcome) :
    PState × List (List Char × List Char) :=
  let s0 := st.doc.processing_status
  let stP := { st with doc := { st.doc with processing_status := "processing".data } }
  let (st1, err) := processRun stP ocr call
  match err with
  | none =>
    ({ st1 with
        doc :=
          { st1.doc with
              processing_status := "completed".data
              processing_error := none } },
      [(s0, "processing".data), ("processing".data, "completed".data)])
  | some e =>
    ({ st1 with
        doc :=
          { st1.doc with
              processing_status := "error".data
              processing_error := some (e.step ++ ": ".data ++ e.message) } },
      [(s0, "processing".data), ("processing".data, "error".data)])

/-- The user-triggered reprocess path
(`reprocess_document_endpoint` → `reprocess_document` → `process_document`
→ `DocumentProcessor.process`): the pipeline runs directly; a
`ProcessingError` is translated into an HTTP 500 response without touching
the document, and no code on this path ever writes `processing_status` or
`processing_error`.  The second component is the (empty) log of
`processing_status` writes. -/
def reprocessRun (st : PState) (ocr : OcrOutcome) (call : CallOutcome) :
    PState × List (List Char × List Char) :=
  ((processRun st ocr call).1, [])

/-! ## The processing queue as a labelled transition system

`DocumentProcessingQueue` holds a FIFO `Queue` and one worker thread:
`start()` is guarded by a lock and spawns a worker only when none is alive,
the worker's loop dequeues one identifier at a time and calls
`_process_single_document` synchronously, and every exception of that call
is caught by the `except Exception` of `_worker` (and `_running` is never
cleared), so the loop continues with the next item.  System behaviour is
therefore generated by interleaving `enqueue` steps (any request thread)
with the single worker's `dequeue`/`finish` steps; the Boolean on `finish`
records whether the processing call returned normally or raised — the
worker continues either way. -/

inductive QEvent where
  | enq (id : Nat)
  | start (id : Nat)
  | finish (id : Nat)
deriving DecidableEq, Repr

structure QueueState where
  queue : List Nat
  busy : Option Nat
  trace : List QEvent
deriving DecidableEq, Repr

inductive QStep : QueueState → QueueState → Prop where
  | enqueue (st : QueueState) (id : Nat) :
      QStep st ⟨st.queue ++ [id], st.busy, st.trace ++ [QEvent.enq id]⟩
  | dequeue (st : QueueState) (id : Nat) (rest : List Nat) :
      st.busy = none → st.queue = id :: rest →
      QStep st ⟨rest, some id, st.trace ++ [QEvent.start id]⟩
  | finish (st : QueueState) (id : Nat) (ok : Bool) :
      st.busy = some id →
      QStep st ⟨st.queue, none, st.trace ++ [QEvent.finish id]⟩

/-- States reachable from the initial empty queue. -/
inductive QReach : QueueState → Prop where
  | init : QReach ⟨[], none, []⟩
  | step {s t : QueueState} : QReach s → QStep s t → QReach t

/-- Number of Orchestrator invocations started in a trace. -/
def countStarts (t : List QEvent) : Nat :=
  t.countP fun e =>
    match e with
    | QEvent.start _ => true
    | _ => false

/-- Number of Orchestrator invocations finished in a trace. -/
def countFin (t : List QEvent) : Nat :=
  t.countP fun e =>
    match e with
    | QEvent.finish _ => true
    | _ => false

/-- The identifiers whose processing has started, in start order. -/
def startedIds (t : List QEvent) : List Nat :=
  t.filterMap fun e =>
    match e with
    | QEvent.start i => some i
    | _ => none

/-- The identifiers enqueued, in enqueue order. -/
def enqueuedIds (t : List QEvent) : List Nat :=
  t.filterMap fun e =>
    match e with
    | QEvent.enq i => some i
    | _ => none

theorem countStarts_append (a b : List QEvent) :
    countStarts (a ++ b) = countStarts a + countStarts b := by
  simp [countStarts, List.countP_append]

theorem countFin_append (a b : List QEvent) :
    countFin (a ++ b) = countFin a + countFin b := by
  simp [countFin, List.countP_append]

theorem startedIds_append (a b : List QEvent) :
    startedIds (a ++ b) = startedIds a ++ startedIds b := by
  simp [startedIds, List.filterMap_append]

theorem enqueuedIds_append (a b : List QEvent) :
    enqueuedIds (a ++ b) = enqueuedIds a ++ enqueuedIds b := by
  simp [enqueuedIds, List.filterMap_append]

/-- The inductive invariant of the queue system: the number of started and
finished invocations matches the worker's busy flag, and the enqueue order
is exactly the start order followed by the pending queue. -/
def QInv (st : QueueState) : Prop :=
  (st.busy = none → countStarts st.trace = countFin st.trace) ∧
  (∀ id, st.busy = some id → countStarts st.trace = countFin st.trace + 1) ∧
  enqueuedIds st.trace = startedIds st.trace ++ st.queue

theorem countStarts_enq1 (i : Nat) : countStarts [QEvent.enq i] = 0 := rfl

theorem countStarts_start1 (i : Nat) : countStarts [QEvent.start i] = 1 := rfl

theorem countStarts_fin1 (i : Nat) : countStarts [QEvent.finish i] = 0 := rfl

theorem countFin_enq1 (i : Nat) : countFin [QEvent.enq i] = 0 := rfl

theorem countFin_start1 (i : Nat) : countFin [QEvent.start i] = 0 := rfl

theorem countFin_fin1 (i : Nat) : countFin [QEvent.finish i] = 1 := rfl

theorem startedIds_enq1 (i : Nat) : startedIds [QEvent.enq i] = [] := rfl

theorem startedIds_start1 (i : Nat) : startedIds [QEvent.start i] = [i] := rfl

theorem startedIds_fin1 (i : Nat) : startedIds [QEvent.finish i] = [] := rfl

theorem enqueuedIds_enq1 (i : Nat) : enqueuedIds [QEvent.enq i] = [i] := rfl

theorem enqueuedIds_start1 (i : Nat) : enqueuedIds [QEvent.start i] = [] := rfl

theorem enqueuedIds_fin1 (i : Nat) : enqueuedIds [QEvent.finish i] = [] := rfl

theorem qinv_holds : ∀ st : QueueState, QReach st → QInv st := by
  intro st h
  induction h with
  | init => exact ⟨fun _ => rfl, fun id h => by simp at h, rfl⟩
  | step hr hs ih =>
    obtain ⟨ihn, ihs, ihq⟩ := ih
    cases hs with
    | enqueue id =>
      refine ⟨?_, ?_, ?_⟩
      · intro hb
        simp only at hb
        simp only [countStarts_append, countFin_append, countStarts_enq1, countFin_enq1,
          ihn hb]
      · intro i hb
        simp only at hb
        simp only [countStarts_append, countFin_append, countStarts_enq1, countFin_enq1,
          ihs i hb]
      · simp only [enqueuedIds_append, startedIds_append, ihq, enqueuedIds_enq1,
          startedIds_enq1, List.append_nil, List.append_assoc]
    | dequeue id rest hb hq =>
      refine ⟨?_, ?_, ?_⟩
      · intro h2
        simp at h2
      · intro i hb2
        simp only [Option.some_inj] at hb2
        simp only [countStarts_append, countFin_append, countStarts_start1, countFin_start1,
          ihn hb]
      · simp only [enqueuedIds_append, startedIds_append, ihq, hq, enqueuedIds_start1,
          startedIds_start1, List.append_nil, List.append_assoc, List.singleton_append]
    | finish id ok hb =>
      refine ⟨?_, ?_, ?_⟩
      · intro _
        simp only [countStarts_append, countFin_append, countStarts_fin1, countFin_fin1,
          ihs id hb]
      · intro i hb2
        simp at hb2
      · simp only [enqueuedIds_append, startedIds_append, ihq, enqueuedIds_fin1,
          startedIds_fin1, List.append_nil]

/-! ## Claims -/

/-- C1: for every sequence of enqueue calls through the Processing Queue
(no concurrent reprocess), Orchestrator invocations never overlap — in every
reachable state at most one invocation is in flight (starts exceed finishes
by at most one) — invocations start in FIFO order of enqueue (the started
identifiers are a prefix of the enqueued identifiers), and an exception
during one document's processing is caught and does not stop the worker
loop (after any finish, successful or not, the dequeue step of the next
queued document remains enabled). -/
theorem queue_serializes_and_survives_errors (st : QueueState) (h : QReach st) :
    countStarts st.trace ≤ countFin st.trace + 1 ∧
    (∃ t, startedIds st.trace ++ t = enqueuedIds st.trace) ∧
    (∀ id rest, st.busy = none → st.queue = id :: rest →
      QStep st ⟨rest, some id, st.trace ++ [QEvent.start id]⟩) := by
  obtain ⟨hn, hs, hq⟩ := qinv_holds st h
  refine ⟨?_, ⟨st.queue, hq.symm⟩, ?_⟩
  · cases hb : st.busy with
    | none => rw [hn hb]; omega
    | some i => rw [hs i hb]
  · intro id rest hb hql
    exact QStep.dequeue st id rest hb hql

/-- Witness for C1: the state reached by enqueuing documents 1 and 2,
processing document 1 to a failure that is caught, and dequeuing document 2. -/
theorem queue_serializes_and_survives_errors_witness :
    (let st : QueueState :=
      ⟨[], some 2, [QEvent.enq 1, QEvent.enq 2, QEvent.start 1, QEvent.finish 1,
        QEvent.start 2]⟩
     countStarts st.trace ≤ countFin st.trace + 1 ∧
     (∃ t, startedIds st.trace ++ t = enqueuedIds st.trace) ∧
     (∀ id rest, st.busy = none → st.queue = id :: rest →
       QStep st ⟨rest, some id, st.trace ++ [QEvent.start id]⟩)) := by
  have h1 : QReach ⟨[1], none, [QEvent.enq 1]⟩ :=
    QReach.step QReach.init (QStep.enqueue ⟨[], none, []⟩ 1)
  have h2 : QReach ⟨[1, 2], none, [QEvent.enq 1, QEvent.enq 2]⟩ :=
    QReach.step h1 (QStep.enqueue ⟨[1], none, [QEvent.enq 1]⟩ 2)
  have h3 : QReach ⟨[2], some 1, [QEvent.enq 1, QEvent.enq 2, QEvent.start 1]⟩ :=
    QReach.step h2 (QStep.dequeue ⟨[1, 2], none, [QEvent.enq 1, QEvent.enq 2]⟩ 1 [2] rfl rfl)
  have h4 : QReach
      ⟨[2], none, [QEvent.enq 1, QEvent.enq 2, QEvent.start 1, QEvent.finish 1]⟩ :=
    QReach.step h3
      (QStep.finish ⟨[2], some 1, [QEvent.enq 1, QEvent.enq 2, QEvent.start 1]⟩ 1 false rfl)
  have h5 : QReach
      ⟨[], some 2,
        [QEvent.enq 1, QEvent.enq 2, QEvent.start 1, QEvent.finish 1, QEvent.start 2]⟩ :=
    QReach.step h4
      (QStep.dequeue
        ⟨[2], none, [QEvent.enq 1, QEvent.enq 2, QEvent.start 1, QEvent.finish 1]⟩
        2 [] rfl rfl)
  exact queue_serializes_and_survives_errors _ h5

/-- C8: empty or whitespace-only OCR text is rejected locally by
`extract_data` — the result is the typed failure and no call to the
generative backend is issued, whatever the network would have answered. -/
theorem blank_ocr_text_fails_locally (s : List Char) (call : CallOutcome)
    (h : ∀ c ∈ s, pySpace c = true) :
    extractData s call = (failResult "Texte OCR vide ou invalide".data none, false) := by
  have h1 : s.dropWhile pySpace = [] := by
    rw [List.dropWhile_eq_nil_iff]
    exact h
  have h2 : pyStrip s = [] := by
    unfold pyStrip
    rw [h1]
    rfl
  unfold extractData
  rw [if_pos (Or.inr h2)]

/-- Witness for C8: three spaces of OCR text, with a network oracle that
would have returned a parseable reply. -/
theorem blank_ocr_text_fails_locally_witness :
    (∀ c ∈ "   ".data, pySpace c = true) ∧
    extractData "   ".data (CallOutcome.reply "\x7b\x7d".data) =
      (failResult "Texte OCR vide ou invalide".data none, false) :=
  ⟨by decide, blank_ocr_text_fails_locally _ _ (by decide)⟩

/-- C9: for every extracted item persisted by a pipeline run, each zero
field is handled independently — a quantity equal to exactly 0 is stored as
1, a unit price equal to exactly 0 is stored as NULL, and a total price
equal to exactly 0 is stored as NULL — because `_create_items` guards these
numeric fields with Python truthiness (`quantity or 1`,
`Decimal(...) if price else None`) rather than presence checks. -/
theorem zero_fields_stored_by_truthiness (ai : ExtractionResult) (e : ExtractedItem)
    (he : e ∈ ai.items) :
    storeItem e ∈ createItems ai ∧
      (e.quantity = 0 → (storeItem e).quantity = 1) ∧
      (e.unit_price = some 0 → (storeItem e).unit_price = none) ∧
      (e.total_price = some 0 → (storeItem e).total_price = none) := by
  refine ⟨List.mem_map_of_mem storeItem he, ?_, ?_, ?_⟩ <;>
    intro h <;> simp [storeItem, h]

/-- Witness for C9: a free line item — quantity 0 with a nonzero unit price
and a zero total price — showing each zero field converted independently
(the nonzero unit price is kept). -/
theorem zero_fields_stored_by_truthiness_witness :
    (let e : ExtractedItem := ⟨"Remise".data, 0, some 2, some 0⟩
     let ai : ExtractionResult := { success := true, items := [e] }
     e ∈ ai.items ∧ e.quantity = 0 ∧ e.total_price = some 0 ∧
       (storeItem e ∈ createItems ai ∧ (storeItem e).quantity = 1 ∧
         (storeItem e).total_price = none ∧ (storeItem e).unit_price = some 2)) := by
  refine ⟨by decide, rfl, rfl, ?_⟩
  have h := zero_fields_stored_by_truthiness
    { success := true, items := [⟨"Remise".data, 0, some 2, some 0⟩] }
    ⟨"Remise".data, 0, some 2, some 0⟩ (by decide)
  exact ⟨h.1, h.2.1 rfl, h.2.2.2 rfl, rfl⟩

/-- C10: comment stripping is applied to the whole recovered JSON text,
inside string literals included.  For the valid JSON object
`{"merchant":"http://x"}` the parser deletes everything from `//` to the end
of the line before parsing — the recovered text is the truncated
`{"merchant":"http:` — so the parse fails, whereas standard JSON parsing of
the same text succeeds with the URL intact. -/
theorem comment_stripping_corrupts_urls :
    extractJson (pyStrip "\x7b\"merchant\":\"http://x\"\x7d".data) =
      some "\x7b\"merchant\":\"http:".data ∧
    (parseResponse "\x7b\"merchant\":\"http://x\"\x7d".data).success = false ∧
    (parseResponse "\x7b\"merchant\":\"http://x\"\x7d".data).error =
      some "JSON invalide".data ∧
    jsonLoads "\x7b\"merchant\":\"http://x\"\x7d".data =
      some (Json.obj [("merchant", Json.str "http://x")]) :=
  ⟨rfl, rfl, rfl, rfl⟩

/-- C4 counterexample: the merge is not purely frame-preserving.  The model
response `{"merchant":"Shop"}` contains neither `is_income` nor `currency`;
the parser defaults them to `False` and `"EUR"`, and `_update_document`
assigns `is_income` unconditionally and `currency` whenever the (defaulted)
parsed value is non-empty — so a document previously marked as income in USD
comes out as a non-income EUR document. -/
theorem merge_overwrites_income_and_currency :
    (let doc : Doc :=
      { doc_type := none, date := none, time := none, merchant := none, location := none,
        total_amount := none, currency := some "USD".data, is_income := true,
        ocr_raw_text := none, ocr_confidence := none,
        processing_status := "processing".data, processing_error := none,
        created_at := none }
     let ai := parseResponse "\x7b\"merchant\":\"Shop\"\x7d".data
     ai.success = true ∧
     doc.is_income = true ∧ (updateDocument doc ai).is_income = false ∧
     doc.currency = some "USD".data ∧
     (updateDocument doc ai).currency = some "EUR".data) := by
  exact ⟨rfl, rfl, rfl, rfl, rfl⟩

/-- C4 amended: the six fields document kind, date, time, merchant,
location and total amount are written only when the corresponding parsed
value is present (absent values leave the previous field unchanged), but
the income flag is always overwritten with the parsed value (which defaults
to false when absent from the response), and the currency is overwritten
whenever the parsed currency is non-empty — and the parser substitutes
`"EUR"` for an absent currency, so an absent currency still overwrites the
previous value. -/
theorem merge_frame_conditions :
    (∀ (doc : Doc) (ai : ExtractionResult),
      (ai.doc_type = none → (updateDocument doc ai).doc_type = doc.doc_type) ∧
      (ai.date = none → (updateDocument doc ai).date = doc.date) ∧
      (ai.time = none → (updateDocument doc ai).time = doc.time) ∧
      (ai.merchant = none → (updateDocument doc ai).merchant = doc.merchant) ∧
      (ai.location = none → (updateDocument doc ai).location = doc.location) ∧
      (ai.total_amount = none → (updateDocument doc ai).total_amount = doc.total_amount) ∧
      (updateDocument doc ai).is_income = ai.is_income ∧
      (ai.currency ≠ [] →
        (updateDocument doc ai).currency = some (pyUpper (ai.currency.take 3)))) ∧
    (∀ (kvs : List (String × Json)) (raw : List Char),
      (jget kvs "is_income" = none → (buildResult kvs raw).is_income = false) ∧
      (jget kvs "currency" = none → (buildResult kvs raw).currency = "EUR".data)) := by
  constructor
  · intro doc ai
    refine ⟨?_, ?_, ?_, ?_, ?_, ?_, ?_, ?_⟩
    · intro h
      simp [updateDocument, h]
    · intro h
      simp [updateDocument, h]
    · intro h
      simp [updateDocument, h]
    · intro h
      simp [updateDocument, h]
    · intro h
      simp [updateDocument, h]
    · intro h
      simp [updateDocument, h]
    · simp [updateDocument]
    · intro h
      simp [updateDocument, h]
  · intro kvs raw
    constructor <;> intro h <;> simp [buildResult, safeGetBool, safeGetStr, pyOrStr, h]

/-- Witness for C4 amended: a response carrying only a merchant, merged
onto a document with every extracted field previously set. -/
theorem merge_frame_conditions_witness :
    (let doc : Doc :=
      { doc_type := some "receipt".data, date := some ⟨2020, 2, 2⟩, time := some ⟨9, 30, 0⟩,
        merchant := some "Old".data, location := some "Paris".data,
        total_amount := some 7, currency := some "USD".data, is_income := true,
        ocr_raw_text := none, ocr_confidence := none,
        processing_status := "processing".data, processing_error := none,
        created_at := none }
     let ai := parseResponse "\x7b\"merchant\":\"Shop\"\x7d".data
     ((updateDocument doc ai).doc_type = doc.doc_type ∧
      (updateDocument doc ai).date = doc.date ∧
      (updateDocument doc ai).time = doc.time ∧
      (updateDocument doc ai).location = doc.location ∧
      (updateDocument doc ai).total_amount = doc.total_amount ∧
      (updateDocument doc ai).is_income = ai.is_income ∧
      (updateDocument doc ai).currency = some (pyUpper (ai.currency.take 3))) ∧
     ((buildResult [("merchant", Json.str "Shop")] "x".data).is_income = false ∧
      (buildResult [("merchant", Json.str "Shop")] "x".data).currency = "EUR".data)) := by
  refine ⟨?_, ?_⟩
  · obtain ⟨h1, h2, h3, h4, h5, h6, h7, h8⟩ := (merge_frame_conditions).1 _
      (parseResponse "\x7b\"merchant\":\"Shop\"\x7d".data)
    exact ⟨h1 rfl, h2 rfl, h3 rfl, h5 rfl, h6 rfl, h7, h8 (by decide)⟩
  · obtain ⟨h1, h2⟩ := (merge_frame_conditions).2 [("merchant", Json.str "Shop")] "x".data
    exact ⟨h1 rfl, h2 rfl⟩

/-- C6: when the structured-extraction step fails — connection error,
timeout, empty reply, HTTP error status, or an unusable reply — the
pipeline raises a recoverable `ProcessingError` tagged `ai` and stops: the
run changes nothing on the document beyond the OCR text and confidence the
OCR step already persisted, and through the queue worker the document ends
in status `error` with the message `ai: <reason>`. -/
theorem ai_failure_preserves_fields_and_sets_error (st : PState) (text : List Char)
    (conf : Rat) (call : CallOutcome)
    (hfail : ((extractData text call).1).success = false) :
    processRun st (OcrOutcome.ok text conf) call =
      ({ st with
          doc := { st.doc with ocr_raw_text := some text, ocr_confidence := some conf } },
        some ⟨pyOrStr ((extractData text call).1).error "Erreur IA inconnue".data,
          "ai".data, true⟩) ∧
    queueRun st (OcrOutcome.ok text conf) call =
      ({ st with
          doc :=
            { st.doc with
                ocr_raw_text := some text
                ocr_confidence := some conf
                processing_status := "error".data
                processing_error :=
                  some ("ai: ".data ++
                    pyOrStr ((extractData text call).1).error "Erreur IA inconnue".data) } },
        [(st.doc.processing_status, "processing".data),
          ("processing".data, "error".data)]) := by
  have h1 : processRun st (OcrOutcome.ok text conf) call =
      ({ st with
          doc := { st.doc with ocr_raw_text := some text, ocr_confidence := some conf } },
        some ⟨pyOrStr ((extractData text call).1).error "Erreur IA inconnue".data,
          "ai".data, true⟩) := by
    simp [processRun, hfail]
  refine ⟨h1, ?_⟩
  have h2 : processRun { st with doc := { st.doc with processing_status := "processing".data } }
      (OcrOutcome.ok text conf) call =
      ({ st with
          doc :=
            { st.doc with
                processing_status := "processing".data
                ocr_raw_text := some text
                ocr_confidence := some conf } },
        some ⟨pyOrStr ((extractData text call).1).error "Erreur IA inconnue".data,
          "ai".data, true⟩) := by
    simp [processRun, hfail]
  simp [queueRun, h2]

/-- C6 counterexample: on the reprocess path an AI-step failure does not
leave the document in status `error` — the endpoint converts the raised
`ProcessingError` into an HTTP 500 without writing the status, so a
previously completed document stays `completed` after a failed reprocess
run. -/
theorem ai_failure_reprocess_keeps_status :
    (let st : PState :=
      ⟨{ doc_type := none, date := none, time := none, merchant := none,
         location := none, total_amount := none, currency := none, is_income := false,
         ocr_raw_text := none, ocr_confidence := none,
         processing_status := "completed".data, processing_error := none,
         created_at := none }, []⟩
     ((extractData "T".data CallOutcome.timeoutError).1).success = false ∧
     (processRun st (OcrOutcome.ok "T".data 80) CallOutcome.timeoutError).2 =
       some ⟨"Timeout lors de l'appel à Ollama".data, "ai".data, true⟩ ∧
     (reprocessRun st (OcrOutcome.ok "T".data 80)
         CallOutcome.timeoutError).1.doc.processing_status = "completed".data ∧
     "completed".data ≠ "error".data) := by
  exact ⟨rfl, rfl, rfl, by decide⟩

/-- Witness for C6: a timeout of the generative backend on a receipt
document. -/
theorem ai_failure_preserves_fields_and_sets_error_witness :
    (let doc : Doc :=
      { doc_type := none, date := none, time := none, merchant := some "Old".data,
        location := none, total_amount := some 5, currency := some "USD".data,
        is_income := false, ocr_raw_text := none, ocr_confidence := none,
        processing_status := "pending".data, processing_error := none,
        created_at := none }
     (((extractData "CARREFOUR".data CallOutcome.timeoutError).1).success = false) ∧
     processRun ⟨doc, []⟩ (OcrOutcome.ok "CARREFOUR".data 90) CallOutcome.timeoutError =
       ({ doc :=
            { doc with
                ocr_raw_text := some "CARREFOUR".data
                ocr_confidence := some 90 }
          items := [] },
         some ⟨"Timeout lors de l'appel à Ollama".data, "ai".data, true⟩) ∧
     queueRun ⟨doc, []⟩ (OcrOutcome.ok "CARREFOUR".data 90) CallOutcome.timeoutError =
       ({ doc :=
            { doc with
                ocr_raw_text := some "CARREFOUR".data
                ocr_confidence := some 90
                processing_status := "error".data
                processing_error := some "ai: Timeout lors de l'appel à Ollama".data }
          items := [] },
         [("pending".data, "processing".data), ("processing".data, "error".data)])) := by
  refine ⟨by decide, ?_⟩
  have h := ai_failure_preserves_fields_and_sets_error
    ⟨{ doc_type := none, date := none, time := none, merchant := some "Old".data,
        location := none, total_amount := some 5, currency := some "USD".data,
        is_income := false, ocr_raw_text := none, ocr_confidence := none,
        processing_status := "pending".data, processing_error := none,
        created_at := none }, []⟩
    "CARREFOUR".data 90 CallOutcome.timeoutError (by decide)
  exact h

/-- The date the merge step recognizes in an `ExtractionResult`: present
when the date field is a non-empty string (Python truthiness) that one of
the accepted formats parses. -/
def recognizedDate (ai : ExtractionResult) : Option PDate :=
  match ai.date with
  | some ds => if ds ≠ [] then parseDate ds else none
  | none => none

theorem updateDocument_date_of_unrecognized (doc : Doc) (ai : ExtractionResult)
    (h : recognizedDate ai = none) : (updateDocument doc ai).date = doc.date := by
  unfold recognizedDate at h
  cases hd : ai.date with
  | none => simp [updateDocument, hd]
  | some ds =>
    rw [hd] at h
    replace h : (if ds ≠ [] then parseDate ds else none) = none := h
    by_cases hds : ds = []
    · simp [updateDocument, hd, hds]
    · rw [if_pos hds] at h
      simp [updateDocument, hd, hds, h]

/-- C7 counterexample: the date fallback only fires when the document has
no date at all.  A document that already carries the date 2020-01-01 (from
an earlier extraction or a manual edit), reprocessed against a response with
no date field, keeps 2020-01-01 — the persisted date does not equal the
creation date 2024-05-05. -/
theorem stale_date_survives_run_without_recognized_date :
    (let doc : Doc :=
      { doc_type := none, date := some ⟨2020, 1, 1⟩, time := none, merchant := none,
        location := none, total_amount := none, currency := none, is_income := false,
        ocr_raw_text := none, ocr_confidence := none,
        processing_status := "completed".data, processing_error := none,
        created_at := some ⟨2024, 5, 5⟩ }
     let call := CallOutcome.reply "\x7b\"merchant\":\"X\"\x7d".data
     let r := processRun ⟨doc, []⟩ (OcrOutcome.ok "TEXT".data 90) call
     ((extractData "TEXT".data call).1).success = true ∧
     recognizedDate ((extractData "TEXT".data call).1) = none ∧
     r.2 = none ∧
     r.1.doc.date = some ⟨2020, 1, 1⟩ ∧
     r.1.doc.created_at = some ⟨2024, 5, 5⟩ ∧
     (⟨2020, 1, 1⟩ : PDate) ≠ ⟨2024, 5, 5⟩) := by
  exact ⟨rfl, rfl, rfl, rfl, rfl, by decide⟩

/-- C7 amended: in a successful pipeline run whose extraction result
contains no recognizable date, a document whose date is unset before the
merge (and whose creation timestamp is present) ends with its creation
date; a document that already has a date keeps that previous date
unchanged. -/
theorem date_falls_back_when_unset (st : PState) (text : List Char) (conf : Rat)
    (call : CallOutcome) (c : PDate)
    (hsuc : ((extractData text call).1).success = true)
    (hnd : recognizedDate ((extractData text call).1) = none)
    (hc : st.doc.created_at = some c) :
    (st.doc.date = none → (processRun st (OcrOutcome.ok text conf) call).1.doc.date = some c) ∧
    (st.doc.date ≠ none →
      (processRun st (OcrOutcome.ok text conf) call).1.doc.date = st.doc.date) := by
  have hdd : (updateDocument
      { st.doc with ocr_raw_text := some text, ocr_confidence := some conf }
      ((extractData text call).1)).date = st.doc.date :=
    updateDocument_date_of_unrecognized _ _ hnd
  have hca : (updateDocument
      { st.doc with ocr_raw_text := some text, ocr_confidence := some conf }
      ((extractData text call).1)).created_at = st.doc.created_at := by
    simp [updateDocument]
  constructor
  · intro hdate
    have h1 : (updateDocument
        { st.doc with ocr_raw_text := some text, ocr_confidence := some conf }
        ((extractData text call).1)).date = none := hdd.trans hdate
    have h2 : (updateDocument
        { st.doc with ocr_raw_text := some text, ocr_confidence := some conf }
        ((extractData text call).1)).created_at = some c := hca.trans hc
    simp [processRun, hsuc, h1, h2]
  · intro hdate
    cases hsd : st.doc.date with
    | none => exact absurd hsd hdate
    | some d =>
      have h1 : (updateDocument
          { st.doc with ocr_raw_text := some text, ocr_confidence := some conf }
          ((extractData text call).1)).date = some d := hdd.trans hsd
      simp [processRun, hsuc, h1]

/-- Witness for C7 amended: a fresh document (no date yet, created
2024-05-05) processed against a reply with no date field. -/
theorem date_falls_back_when_unset_witness :
    (let doc : Doc :=
      { doc_type := none, date := none, time := none, merchant := none,
        location := none, total_amount := none, currency := none, is_income := false,
        ocr_raw_text := none, ocr_confidence := none,
        processing_status := "processing".data, processing_error := none,
        created_at := some ⟨2024, 5, 5⟩ }
     let call := CallOutcome.reply "\x7b\"merchant\":\"X\"\x7d".data
     ((extractData "TEXT".data call).1).success = true ∧
     recognizedDate ((extractData "TEXT".data call).1) = none ∧
     (processRun ⟨doc, []⟩ (OcrOutcome.ok "TEXT".data 90) call).1.doc.date =
       some ⟨2024, 5, 5⟩) := by
  refine ⟨rfl, rfl, ?_⟩
  exact (date_falls_back_when_unset
    ⟨{ doc_type := none, date := none, time := none, merchant := none,
        location := none, total_amount := none, currency := none, is_income := false,
        ocr_raw_text := none, ocr_confidence := none,
        processing_status := "processing".data, processing_error := none,
        created_at := some ⟨2024, 5, 5⟩ }, []⟩
    "TEXT".data 90 (CallOutcome.reply "\x7b\"merchant\":\"X\"\x7d".data)
    ⟨2024, 5, 5⟩ (by decide) (by decide) rfl).1 rfl

/-- `completed` never coexists with `processing_error` set. -/
def completedOk (d : Doc) : Prop :=
  d.processing_status = "completed".data → d.processing_error = none

instance completedOkDec (d : Doc) : Decidable (completedOk d) :=
  inferInstanceAs
    (Decidable (d.processing_status = "completed".data → d.processing_error = none))

/-- The extracted payload of a document-with-items state: every merge field
together with the item rows — everything a pipeline run writes except the
OCR fields and the status bookkeeping. -/
def mergedPayload (st : PState) :
    Option (List Char) × Option PDate × Option PTime × Option (List Char) ×
      Option (List Char) × Option Rat × Option (List Char) × Bool × List Item :=
  (st.doc.doc_type, st.doc.date, st.doc.time, st.doc.merchant, st.doc.location,
   st.doc.total_amount, st.doc.currency, st.doc.is_income, st.items)

theorem processRun_preserves_status (st : PState) (ocr : OcrOutcome) (call : CallOutcome) :
    (processRun st ocr call).1.doc.processing_status = st.doc.processing_status ∧
    (processRun st ocr call).1.doc.processing_error = st.doc.processing_error := by
  cases ocr with
  | fail e => simp [processRun]
  | ok text conf =>
    cases hs : ((extractData text call).1).success with
    | false => simp [processRun, hs]
    | true =>
      constructor <;>
        · simp only [processRun, hs]
          split
          · split <;> simp [updateDocument]
          · simp_all

theorem processRun_fail_payload (st : PState) (ocr : OcrOutcome) (call : CallOutcome)
    (e : ProcErr) (h : (processRun st ocr call).2 = some e) :
    mergedPayload (processRun st ocr call).1 = mergedPayload st := by
  cases ocr with
  | fail e2 => simp [processRun, mergedPayload]
  | ok text conf =>
    cases hs : ((extractData text call).1).success with
    | true => simp [processRun, hs] at h
    | false => simp [processRun, hs, mergedPayload]

/-- C2: after a queue-worker run (success or failure) the document never
has status `completed` together with an error text (a successful run clears
it, a failed run leaves status `error`); the user-triggered reprocess path
touches neither status nor error text, so it preserves that consistency;
and any run that writes status `error` wrote none of the merge payload
(extracted fields and items) in that run — `error` never coexists with a
completed-shaped payload produced by the run that set it.  The reprocess
path performs no status writes at all. -/
theorem status_error_consistency (st : PState) (ocr : OcrOutcome) (call : CallOutcome) :
    completedOk (queueRun st ocr call).1.doc ∧
    (completedOk st.doc → completedOk (reprocessRun st ocr call).1.doc) ∧
    ("error".data ∈ (queueRun st ocr call).2.map Prod.snd →
      mergedPayload (queueRun st ocr call).1 = mergedPayload st) ∧
    (reprocessRun st ocr call).2 = [] := by
  refine ⟨?_, ?_, ?_, rfl⟩
  · rcases hpr : processRun
        { st with doc := { st.doc with processing_status := "processing".data } } ocr call
      with ⟨st1, err⟩
    cases err with
    | none =>
      intro _
      simp [queueRun, hpr]
    | some e =>
      intro hcs
      simp only [queueRun, hpr] at hcs
      exact absurd hcs (by decide)
  · intro hok hcs
    obtain ⟨hst, herr⟩ := processRun_preserves_status st ocr call
    rw [reprocessRun] at hcs ⊢
    rw [hst] at hcs
    rw [herr]
    exact hok hcs
  · rcases hpr : processRun
        { st with doc := { st.doc with processing_status := "processing".data } } ocr call
      with ⟨st1, err⟩
    cases err with
    | none =>
      intro hmem
      simp only [queueRun, hpr, List.map_cons, List.map_nil] at hmem
      exact absurd hmem (by decide)
    | some e =>
      intro _
      have hp : mergedPayload (processRun
          { st with doc := { st.doc with processing_status := "processing".data } }
          ocr call).1 = mergedPayload
          { st with doc := { st.doc with processing_status := "processing".data } } :=
        processRun_fail_payload _ ocr call e (by rw [hpr])
      rw [hpr] at hp
      have h2 : mergedPayload (queueRun st ocr call).1 = mergedPayload st1 := by
        simp [queueRun, hpr, mergedPayload]
      rw [h2, hp]
      simp [mergedPayload]

/-- Witness for C2: a previously completed document whose OCR fails during
a queue re-run, and the same situation on the reprocess path. -/
theorem status_error_consistency_witness :
    (let st : PState :=
      ⟨{ doc_type := some "receipt".data, date := some ⟨2024, 1, 1⟩, time := none,
         merchant := some "Shop".data, location := none, total_amount := some 5,
         currency := some "EUR".data, is_income := false, ocr_raw_text := some "T".data,
         ocr_confidence := some 90, processing_status := "completed".data,
         processing_error := none, created_at := some ⟨2024, 1, 1⟩ }, []⟩
     completedOk (queueRun st (OcrOutcome.fail "boom".data) CallOutcome.connectError).1.doc ∧
     completedOk
       (reprocessRun st (OcrOutcome.fail "boom".data) CallOutcome.connectError).1.doc ∧
     mergedPayload (queueRun st (OcrOutcome.fail "boom".data) CallOutcome.connectError).1 =
       mergedPayload st ∧
     (reprocessRun st (OcrOutcome.fail "boom".data) CallOutcome.connectError).2 = []) := by
  have h := status_error_consistency
    ⟨{ doc_type := some "receipt".data, date := some ⟨2024, 1, 1⟩, time := none,
       merchant := some "Shop".data, location := none, total_amount := some 5,
       currency := some "EUR".data, is_income := false, ocr_raw_text := some "T".data,
       ocr_confidence := some 90, processing_status := "completed".data,
       processing_error := none, created_at := some ⟨2024, 1, 1⟩ }, []⟩
    (OcrOutcome.fail "boom".data) CallOutcome.connectError
  exact ⟨h.1, h.2.1 (by decide), h.2.2.1 (by decide), h.2.2.2⟩

/-- C3 counterexample: a user-triggered reprocess does not re-enter
`processing`.  On a document in status `error`, a reprocess whose pipeline
run succeeds performs no `processing_status` write at all — the document
stays in status `error` from start to finish, and in particular never
transitions into `processing`. -/
theorem reprocess_skips_processing_status :
    (let st : PState :=
      ⟨{ doc_type := none, date := some ⟨2024, 1, 1⟩, time := none, merchant := none,
         location := none, total_amount := none, currency := none, is_income := false,
         ocr_raw_text := none, ocr_confidence := none,
         processing_status := "error".data,
         processing_error := some "ocr: boom".data, created_at := some ⟨2024, 1, 1⟩ }, []⟩
     let call := CallOutcome.reply "\x7b\"merchant\":\"X\"\x7d".data
     let r := reprocessRun st (OcrOutcome.ok "TEXT".data 90) call
     (processRun st (OcrOutcome.ok "TEXT".data 90) call).2 = none ∧
     r.2 = [] ∧
     r.1.doc.processing_status = "error".data ∧
     ∀ w ∈ r.2, w.2 ≠ "processing".data) := by
  refine ⟨rfl, rfl, rfl, ?_⟩
  intro w hw
  exact absurd hw (List.not_mem_nil w)

/-- C3 amended: every status transition written by the queue worker on a
document taken from the upload path (status `pending`) is one of
`pending→processing`, `processing→completed` or `processing→error`; the
user-triggered reprocess path writes no status transition at all (rather
than re-entering `processing` as the spec describes). -/
theorem status_transitions_legal (st : PState) (ocr : OcrOutcome) (call : CallOutcome)
    (h : st.doc.processing_status = "pending".data) :
    (∀ w ∈ (queueRun st ocr call).2,
      w = ("pending".data, "processing".data) ∨
      w = ("processing".data, "completed".data) ∨
      w = ("processing".data, "error".data)) ∧
    (reprocessRun st ocr call).2 = [] := by
  refine ⟨?_, rfl⟩
  rcases hpr : processRun
      { st with doc := { st.doc with processing_status := "processing".data } } ocr call
    with ⟨st1, err⟩
  intro w hw
  cases err with
  | none =>
    simp only [queueRun, hpr, h, List.mem_cons, List.not_mem_nil, or_false] at hw
    rcases hw with h1 | h1
    · exact Or.inl h1
    · exact Or.inr (Or.inl h1)
  | some e =>
    simp only [queueRun, hpr, h, List.mem_cons, List.not_mem_nil, or_false] at hw
    rcases hw with h1 | h1
    · exact Or.inl h1
    · exact Or.inr (Or.inr h1)

/-- Witness for C3 amended: an upload-path document whose AI step times
out. -/
theorem status_transitions_legal_witness :
    (let st : PState :=
      ⟨{ doc_type := none, date := none, time := none, merchant := none,
         location := none, total_amount := none, currency := none, is_income := false,
         ocr_raw_text := none, ocr_confidence := none,
         processing_status := "pending".data, processing_error := none,
         created_at := some ⟨2024, 1, 1⟩ }, []⟩
     (∀ w ∈ (queueRun st (OcrOutcome.ok "T".data 80) CallOutcome.timeoutError).2,
       w = ("pending".data, "processing".data) ∨
       w = ("processing".data, "completed".data) ∨
       w = ("processing".data, "error".data)) ∧
     (reprocessRun st (OcrOutcome.ok "T".data 80) CallOutcome.timeoutError).2 = []) :=
  status_transitions_legal
    ⟨{ doc_type := none, date := none, time := none, merchant := none,
       location := none, total_amount := none, currency := none, is_income := false,
       ocr_raw_text := none, ocr_confidence := none,
       processing_status := "pending".data, processing_error := none,
       created_at := some ⟨2024, 1, 1⟩ }, []⟩
    (OcrOutcome.ok "T".data 80) CallOutcome.timeoutError rfl

/-! ## C5 support: noisy wrappings of a JSON object

The four noisy forms of the defensive-parsing property, made concrete: a
fenced code block, line comments around the object, a trailing comma before
the closing brace, and surrounding prose. -/

def fencedWrap (s : List Char) : List Char :=
  "```json\n".data ++ s ++ "\n```".data

def prosedWrap (s : List Char) : List Char :=
  "Here is the JSON:\n".data ++ s ++ "\nThanks.".data

def commentedWrap (s : List Char) : List Char :=
  "// model output\n".data ++ s ++ " // end".data

def trailingCommaWrap (s : List Char) : List Char :=
  s.dropLast ++ [',', '\x7d']

/-- A minified JSON object text on which the recovery heuristics are exact:
it starts with `{`, the brace-depth scan closes exactly at its last
character (no unbalanced brace inside a string literal), it contains no
backtick, and the three stripping passes leave it unchanged (no `//`, no
`/*`, no comma directly before a closing bracket — inside string literals
included). -/
def cleanJson (s : List Char) : Prop :=
  s.head? = some '\x7b' ∧ findClose s = some (s.length - 1) ∧ '`' ∉ s ∧
    rlc s = s ∧ rbc s = s ∧ stc s = s

instance cleanJsonDec (s : List Char) : Decidable (cleanJson s) :=
  inferInstanceAs (Decidable (s.head? = some '\x7b' ∧
    findClose s = some (s.length - 1) ∧ '`' ∉ s ∧ rlc s = s ∧ rbc s = s ∧ stc s = s))

/-- An `ExtractionResult` with its verbatim-response diagnostic erased:
`raw_response` records the original response text and so necessarily
differs between a noisy response and its bare equivalent. -/
def coreOf (r : ExtractionResult) : ExtractionResult :=
  { r with raw_response := none }

/-- Two response texts from which `_extract_json` recovers the same string
parse to the same result up to the `raw_response` diagnostic. -/
theorem coreOf_parseResponse_congr {t u : List Char}
    (h : extractJson (pyStrip t) = extractJson (pyStrip u)) :
    coreOf (parseResponse t) = coreOf (parseResponse u) := by
  unfold parseResponse
  rw [h]
  cases hE : extractJson (pyStrip u) with
  | none => rfl
  | some js =>
    by_cases hjs : js = []
    · simp only [if_pos hjs]
      rfl
    · simp only [if_neg hjs]
      cases hJ : jsonLoads js with
      | none => rfl
      | some v => cases v <;> rfl

theorem dropWhile_eq_self_of_head {l : List Char} {c : Char} (hl : l.head? = some c)
    (hc : pySpace c = false) : l.dropWhile pySpace = l := by
  cases l with
  | nil => rfl
  | cons a t =>
    have ha : a = c := by simpa using hl
    rw [List.dropWhile_cons, ha, hc]
    simp

theorem pyStrip_eq_self {l : List Char} {c d : Char} (h1 : l.head? = some c)
    (hc : pySpace c = false) (h2 : l.getLast? = some d) (hd : pySpace d = false) :
    pyStrip l = l := by
  unfold pyStrip
  rw [dropWhile_eq_self_of_head h1 hc]
  rw [dropWhile_eq_self_of_head (by rw [List.head?_reverse]; exact h2) hd]
  exact List.reverse_reverse l

theorem getLast?_mid (pre s q : List Char) (x : Char) :
    (pre ++ s ++ (q ++ [x])).getLast? = some x := by
  have h : pre ++ s ++ (q ++ [x]) = (pre ++ s ++ q) ++ [x] := by
    simp [List.append_assoc]
  rw [h, List.getLast?_concat]

theorem findTriple_none : ∀ {l : List Char}, '`' ∉ l → findTriple l = none
  | [], _ => rfl
  | [_], _ => rfl
  | [_, _], _ => rfl
  | a :: b :: c :: rest, h => by
    have ha : a ≠ '`' := fun e => h (by simp [e])
    rw [findTriple, if_neg (fun hand => ha hand.1)]
    exact findTriple_none fun e => h (List.mem_cons_of_mem a e)

theorem fenceSearch_none {l : List Char} (h : '`' ∉ l) : fenceSearch l = none := by
  unfold fenceSearch
  rw [findTriple_none h]

theorem take3_ne_fence {t : List Char} (h : '`' ∉ t) :
    (t ++ '\n' :: '`' :: '`' :: '`' :: []).take 3 ≠ ['`', '`', '`'] := by
  cases t with
  | nil => decide
  | cons a t2 =>
    intro he
    have ha : a = '`' := by
      have := congrArg List.head? he
      simpa using this
    exact h (by simp [ha])

theorem lazyCapture_clean : ∀ (l acc : List Char), '`' ∉ l →
    lazyCapture acc (l ++ '\n' :: '`' :: '`' :: '`' :: []) = some (acc.reverse ++ l)
  | [], acc, _ => by simp [lazyCapture]
  | a :: t, acc, h => by
    have ha : a ≠ '`' := fun e => h (by simp [e])
    have ht : '`' ∉ t := fun e => h (List.mem_cons_of_mem a e)
    rw [List.cons_append, lazyCapture,
      if_neg (fun hand => take3_ne_fence ht hand.2),
      if_neg (fun hand => ha hand.1),
      lazyCapture_clean t (a :: acc) ht]
    simp

theorem fenceSearch_fenced (s : List Char) (hnb : '`' ∉ s) (hh : s.head? = some '\x7b') :
    fenceSearch (fencedWrap s) = some s := by
  cases s with
  | nil => simp at hh
  | cons a tail =>
    have ha : a = '\x7b' := by simpa using hh
    subst ha
    have h1 : findTriple (fencedWrap ('\x7b' :: tail)) =
        some ("json\n".data ++ ('\x7b' :: tail) ++ "\n```".data) := rfl
    unfold fenceSearch
    rw [h1]
    have h2 : ("json\n".data ++ ('\x7b' :: tail) ++ "\n```".data).take 4 =
        ['j', 's', 'o', 'n'] := rfl
    simp only [h2, if_pos]
    have h3 : ("json\n".data ++ ('\x7b' :: tail) ++ "\n```".data).drop 4 =
        '\n' :: ('\x7b' :: (tail ++ "\n```".data)) := by
      simp [fencedWrap]
    rw [h3]
    have h4 : List.dropWhile pySpace ('\n' :: ('\x7b' :: (tail ++ "\n```".data))) =
        '\x7b' :: (tail ++ "\n```".data) := by
      rw [List.dropWhile_cons]
      simp only [show pySpace '\n' = true from rfl, if_true]
      rw [List.dropWhile_cons]
      simp [show pySpace '\x7b' = false from rfl]
    rw [h4]
    have h5 := lazyCapture_clean ('\x7b' :: tail) [] hnb
    rw [show ('\x7b' :: tail) ++ '\n' :: '`' :: '`' :: '`' :: [] =
        '\x7b' :: (tail ++ "\n```".data) from by simp] at h5
    rw [h5]
    simp

theorem findBraceIdx_append (pre l : List Char) (hpre : '\x7b' ∉ pre)
    (hl : l.head? = some '\x7b') : findBraceIdx (pre ++ l) = some pre.length := by
  induction pre with
  | nil =>
    cases l with
    | nil => simp at hl
    | cons a t =>
      have ha : a = '\x7b' := by simpa using hl
      subst ha
      simp [findBraceIdx]
  | cons a p ih =>
    have ha : a ≠ '\x7b' := fun e => hpre (by simp [e])
    have hp : '\x7b' ∉ p := fun e => hpre (List.mem_cons_of_mem a e)
    rw [List.cons_append, findBraceIdx, if_neg ha, ih hp]
    rfl

theorem findCloseGo_append {cs : List Char} {i : Nat} {d : Int} {j : Nat} (post : List Char)
    (h : findCloseGo cs i d = some j) : findCloseGo (cs ++ post) i d = some j := by
  induction cs generalizing i d with
  | nil => simp [findCloseGo] at h
  | cons c rest ih =>
    rw [List.cons_append]
    rw [findCloseGo] at h ⊢
    split_ifs at h ⊢ with h1 h2 h3
    · exact ih h
    · exact h
    · exact ih h
    · exact ih h

theorem extractJson_wrap (pre s post : List Char)
    (hnb : '`' ∉ pre ++ s ++ post) (hbr : '\x7b' ∉ pre)
    (hh : s.head? = some '\x7b') (hcl : findClose s = some (s.length - 1))
    (hne : s ≠ []) :
    extractJson (pre ++ s ++ post) = some (removeComments s) := by
  have hhsp : (s ++ post).head? = some '\x7b' := by
    cases s with
    | nil => exact absurd rfl hne
    | cons a t => simpa using hh
  have hlen : s.length - 1 + 1 = s.length := by
    have : 0 < s.length := List.length_pos.mpr hne
    omega
  have h1 : fenceSearch (pre ++ s ++ post) = none := fenceSearch_none hnb
  have h2 : findBraceIdx (pre ++ s ++ post) = some pre.length := by
    rw [List.append_assoc]
    exact findBraceIdx_append pre (s ++ post) hbr hhsp
  have hcl2 : findCloseGo s 0 0 = some (s.length - 1) := hcl
  have h3 : findClose ((pre ++ s ++ post).drop pre.length) = some (s.length - 1) := by
    rw [List.append_assoc, List.drop_left pre (s ++ post)]
    exact findCloseGo_append post hcl2
  have h4 : ((pre ++ s ++ post).drop pre.length).take (s.length - 1 + 1) = s := by
    rw [List.append_assoc, List.drop_left pre (s ++ post), hlen, List.take_left s post]
  simp only [extractJson, h1, h2, h3, h4]

theorem rlcGo_len : ∀ (l : List Char) (m : Bool), (rlcGo m l).length ≤ l.length
  | [], m => by cases m <;> simp [rlcGo]
  | c :: rest, true => by
    simp only [rlcGo]
    split
    · simpa using rlcGo_len rest false
    · exact (rlcGo_len rest true).trans (Nat.le_succ _)
  | c :: rest, false => by
    simp only [rlcGo]
    split
    · exact (rlcGo_len rest true).trans (Nat.le_succ _)
    · simpa using rlcGo_len rest false

theorem rbcGo_len : ∀ (l : List Char) (m : Nat), (rbcGo m l).length ≤ l.length
  | [], m => by
    have h : rbcGo m [] = [] := by
      rcases m with _ | _ | _ | _ | m <;> rfl
    simp [h]
  | c :: rest, 0 => by
    simp only [rbcGo]
    split
    · exact (rbcGo_len rest 3).trans (Nat.le_succ _)
    · simpa using rbcGo_len rest 0
  | c :: rest, 1 => by
    simp only [rbcGo]
    split
    · exact (rbcGo_len rest 2).trans (Nat.le_succ _)
    · exact (rbcGo_len rest 1).trans (Nat.le_succ _)
  | c :: rest, 2 => by
    have h : rbcGo 2 (c :: rest) = rbcGo 0 rest := rfl
    rw [h]
    exact (rbcGo_len rest 0).trans (Nat.le_succ _)
  | c :: rest, 3 => by
    have h : rbcGo 3 (c :: rest) = rbcGo 1 rest := rfl
    rw [h]
    exact (rbcGo_len rest 1).trans (Nat.le_succ _)
  | c :: rest, (m + 4) => by
    have h : rbcGo (m + 4) (c :: rest) = rbcGo 0 rest := rfl
    rw [h]
    exact (rbcGo_len rest 0).trans (Nat.le_succ _)

theorem stcGo_len : ∀ (l : List Char) (m : Bool), (stcGo m l).length ≤ l.length
  | [], m => by cases m <;> simp [stcGo]
  | c :: rest, true => by
    simp only [stcGo]
    split
    · exact (stcGo_len rest true).trans (Nat.le_succ _)
    · simpa using stcGo_len rest false
  | c :: rest, false => by
    simp only [stcGo]
    split
    · exact (stcGo_len rest true).trans (Nat.le_succ _)
    · simpa using stcGo_len rest false

theorem rlcGo_insert : ∀ (l : List Char),
    rlcGo false (l ++ ['\x7d']) = l ++ ['\x7d'] →
    rlcGo false (l ++ [',', '\x7d']) = l ++ [',', '\x7d']
  | [], _ => by decide
  | c :: t, H => by
    rw [List.cons_append] at H ⊢
    by_cases hc : c = '/' ∧ (t ++ ['\x7d']).head? = some '/'
    · rw [show rlcGo false (c :: (t ++ ['\x7d'])) = rlcGo true (t ++ ['\x7d']) from by
        simp only [rlcGo, if_pos hc]] at H
      have hlen := rlcGo_len (t ++ ['\x7d']) true
      rw [H] at hlen
      simp at hlen
    · rw [show rlcGo false (c :: (t ++ ['\x7d'])) = c :: rlcGo false (t ++ ['\x7d']) from by
        simp only [rlcGo, if_neg hc]] at H
      have Ht : rlcGo false (t ++ ['\x7d']) = t ++ ['\x7d'] :=
        List.cons_injective.eq_iff.mp H
      have hc2 : ¬(c = '/' ∧ (t ++ [',', '\x7d']).head? = some '/') := by
        rintro ⟨h1, h2⟩
        cases t with
        | nil => simp at h2
        | cons d t2 =>
          have hd : d = '/' := by simpa using h2
          exact hc ⟨h1, by simp [hd]⟩
      rw [show rlcGo false (c :: (t ++ [',', '\x7d'])) =
          c :: rlcGo false (t ++ [',', '\x7d']) from by
        simp only [rlcGo, if_neg hc2], rlcGo_insert t Ht]

theorem afterStarSlash_insert : ∀ (t : List Char),
    (afterStarSlash (t ++ [',', '\x7d'])).isSome = (afterStarSlash (t ++ ['\x7d'])).isSome
  | [] => by decide
  | [x] => by simp [afterStarSlash]
  | x :: y :: t2 => by
    by_cases hxy : x = '*' ∧ y = '/'
    · simp [afterStarSlash, hxy]
    · simp only [List.cons_append]
      rw [show afterStarSlash (x :: (y :: (t2 ++ [',', '\x7d']))) =
          afterStarSlash (y :: (t2 ++ [',', '\x7d'])) from by
          simp only [afterStarSlash, if_neg hxy],
        show afterStarSlash (x :: (y :: (t2 ++ ['\x7d']))) =
          afterStarSlash (y :: (t2 ++ ['\x7d'])) from by
          simp only [afterStarSlash, if_neg hxy]]
      have := afterStarSlash_insert (y :: t2)
      simpa using this

theorem rbcGo_insert : ∀ (l : List Char),
    rbcGo 0 (l ++ ['\x7d']) = l ++ ['\x7d'] →
    rbcGo 0 (l ++ [',', '\x7d']) = l ++ [',', '\x7d']
  | [], _ => by decide
  | c :: t, H => by
    rw [List.cons_append] at H ⊢
    by_cases hc : c = '/' ∧ (t ++ ['\x7d']).head? = some '*' ∧
        (afterStarSlash (t ++ ['\x7d']).tail).isSome = true
    · rw [show rbcGo 0 (c :: (t ++ ['\x7d'])) = rbcGo 3 (t ++ ['\x7d']) from by
        simp only [rbcGo, if_pos hc]] at H
      have hlen := rbcGo_len (t ++ ['\x7d']) 3
      rw [H] at hlen
      simp at hlen
    · rw [show rbcGo 0 (c :: (t ++ ['\x7d'])) = c :: rbcGo 0 (t ++ ['\x7d']) from by
        simp only [rbcGo, if_neg hc]] at H
      have Ht : rbcGo 0 (t ++ ['\x7d']) = t ++ ['\x7d'] :=
        List.cons_injective.eq_iff.mp H
      have hc2 : ¬(c = '/' ∧ (t ++ [',', '\x7d']).head? = some '*' ∧
          (afterStarSlash (t ++ [',', '\x7d']).tail).isSome = true) := by
        rintro ⟨h1, h2, h3⟩
        cases t with
        | nil => simp at h2
        | cons d t2 =>
          have hd : d = '*' := by simpa using h2
          refine hc ⟨h1, by simp [hd], ?_⟩
          have := afterStarSlash_insert t2
          simp only [List.cons_append, List.tail_cons] at h3 ⊢
          rw [← this]
          exact h3
      rw [show rbcGo 0 (c :: (t ++ [',', '\x7d'])) =
          c :: rbcGo 0 (t ++ [',', '\x7d']) from by
        simp only [rbcGo, if_neg hc2], rbcGo_insert t Ht]

theorem dropWhile_append_char (p : Char → Bool) : ∀ (t u : List Char),
    List.dropWhile p (t ++ u) =
      if (List.dropWhile p t).isEmpty then List.dropWhile p u
      else List.dropWhile p t ++ u
  | [], u => by simp
  | c :: t, u => by
    rw [List.cons_append, List.dropWhile_cons, List.dropWhile_cons]
    by_cases hp : p c = true
    · simp only [hp, if_true]
      exact dropWhile_append_char p t u
    · simp only [hp]
      simp

theorem stcGo_insert : ∀ (l : List Char),
    stcGo false (l ++ ['\x7d']) = l ++ ['\x7d'] →
    stcGo false (l ++ [',', '\x7d']) = l ++ ['\x7d']
  | [], _ => by decide
  | c :: t, H => by
    rw [List.cons_append] at H ⊢
    by_cases hc : c = ',' ∧
        ((List.dropWhile pySpace (t ++ ['\x7d'])).head? = some ']' ∨
          (List.dropWhile pySpace (t ++ ['\x7d'])).head? = some '\x7d')
    · rw [show stcGo false (c :: (t ++ ['\x7d'])) = stcGo true (t ++ ['\x7d']) from by
        simp only [stcGo, if_pos hc]] at H
      have hlen := stcGo_len (t ++ ['\x7d']) true
      rw [H] at hlen
      simp at hlen
    · rw [show stcGo false (c :: (t ++ ['\x7d'])) = c :: stcGo false (t ++ ['\x7d']) from by
        simp only [stcGo, if_neg hc]] at H
      have Ht : stcGo false (t ++ ['\x7d']) = t ++ ['\x7d'] :=
        List.cons_injective.eq_iff.mp H
      have hc2 : ¬(c = ',' ∧
          ((List.dropWhile pySpace (t ++ [',', '\x7d'])).head? = some ']' ∨
            (List.dropWhile pySpace (t ++ [',', '\x7d'])).head? = some '\x7d')) := by
        rintro ⟨h1, h2⟩
        cases hdt : List.dropWhile pySpace t with
        | nil =>
          rw [dropWhile_append_char pySpace t [',', '\x7d'], hdt] at h2
          simp at h2
          rcases h2 with h2 | h2 <;> exact absurd h2 (by decide)
        | cons e t2 =>
          apply hc
          refine ⟨h1, ?_⟩
          rw [dropWhile_append_char pySpace t [',', '\x7d'], hdt] at h2
          rw [dropWhile_append_char pySpace t ['\x7d'], hdt]
          simpa using h2
      rw [show stcGo false (c :: (t ++ [',', '\x7d'])) =
          c :: stcGo false (t ++ [',', '\x7d']) from by
        simp only [stcGo, if_neg hc2], stcGo_insert t Ht]
      rfl

theorem close_at_end : ∀ (cs : List Char) (i : Nat) (d : Int) (j : Nat),
    findCloseGo cs i d = some j → j + 1 = i + cs.length → ∃ a, cs = a ++ ['\x7d']
  | [], i, d, j, h, _ => by simp [findCloseGo] at h
  | c :: rest, i, d, j, h, hj => by
    rw [findCloseGo] at h
    split_ifs at h with h1 h2 h3
    · obtain ⟨a, ha⟩ := close_at_end rest (i + 1) (d + 1) j h (by
        simp only [List.length_cons] at hj
        omega)
      exact ⟨c :: a, by rw [List.cons_append, ha]⟩
    · have hji : j = i := by
        cases h
        rfl
      have hr : rest.length = 0 := by
        simp only [List.length_cons] at hj
        omega
      have hrn : rest = [] := List.length_eq_zero.mp hr
      subst hrn
      subst h2
      exact ⟨[], rfl⟩
    · obtain ⟨a, ha⟩ := close_at_end rest (i + 1) (d - 1) j h (by
        simp only [List.length_cons] at hj
        omega)
      exact ⟨c :: a, by rw [List.cons_append, ha]⟩
    · obtain ⟨a, ha⟩ := close_at_end rest (i + 1) d j h (by
        simp only [List.length_cons] at hj
        omega)
      exact ⟨c :: a, by rw [List.cons_append, ha]⟩

theorem findCloseGo_insert : ∀ (init : List Char) (i : Nat) (d : Int),
    findCloseGo (init ++ ['\x7d']) i d = some (i + init.length) →
    findCloseGo (init ++ [',', '\x7d']) i d = some (i + init.length + 1)
  | [], i, d, h => by
    simp only [List.nil_append] at h
    rw [findCloseGo] at h
    rw [if_neg (by decide), if_pos rfl] at h
    by_cases hd : d - 1 = 0
    · simp only [List.nil_append, List.length_nil]
      rw [findCloseGo, if_neg (by decide), if_neg (by decide),
        findCloseGo, if_neg (by decide), if_pos rfl, if_pos hd]
    · rw [if_neg hd, findCloseGo] at h
      exact absurd h (by simp)
  | c :: init2, i, d, h => by
    rw [List.cons_append] at h ⊢
    rw [findCloseGo] at h ⊢
    split_ifs at h ⊢ with h1 h2 h3
    · have hrec := findCloseGo_insert init2 (i + 1) (d + 1) (by
        rw [h]
        congr 1
        simp only [List.length_cons]
        omega)
      rw [hrec]
      congr 1
      simp only [List.length_cons]
      omega
    · have hcontra : i = i + ((c :: init2).length) := Option.some_inj.mp h
      simp only [List.length_cons] at hcontra
      exact absurd hcontra (by omega)
    · have hrec := findCloseGo_insert init2 (i + 1) (d - 1) (by
        rw [h]
        congr 1
        simp only [List.length_cons]
        omega)
      rw [hrec]
      congr 1
      simp only [List.length_cons]
      omega
    · have hrec := findCloseGo_insert init2 (i + 1) d (by
        rw [h]
        congr 1
        simp only [List.length_cons]
        omega)
      rw [hrec]
      congr 1
      simp only [List.length_cons]
      omega

/-- C5 amended: for a minified JSON object text that is clean in the sense
of `cleanJson` — brace matching closes at its end, no backtick, unchanged by
the comment/trailing-comma stripping passes — wrapping the response in a
fenced code block, adding `//` line comments around the object, inserting a
trailing comma before the closing brace, or surrounding the object with
prose all yield the identical `ExtractionResult` up to the `raw_response`
diagnostic (which records the original response verbatim and therefore
necessarily differs). -/
theorem parse_variants_agree_on_clean_json (s : List Char) (h : cleanJson s) :
    coreOf (parseResponse (fencedWrap s)) = coreOf (parseResponse s) ∧
    coreOf (parseResponse (commentedWrap s)) = coreOf (parseResponse s) ∧
    coreOf (parseResponse (trailingCommaWrap s)) = coreOf (parseResponse s) ∧
    coreOf (parseResponse (prosedWrap s)) = coreOf (parseResponse s) := by
  obtain ⟨hh, hcl, hnb, hrl, hrb, hst⟩ := h
  have hne : s ≠ [] := by
    intro e
    rw [e] at hh
    simp at hh
  have hlen1 : 0 < s.length := List.length_pos.mpr hne
  have hcl0 : findCloseGo s 0 0 = some (s.length - 1) := hcl
  obtain ⟨init, hinit⟩ := close_at_end s 0 0 (s.length - 1) hcl0 (by omega)
  have hrc : removeComments s = s := by
    unfold removeComments
    rw [show rlc s = s from hrl, show rbc s = s from hrb, hst]
  have hlast : s.getLast? = some '\x7d' := by
    rw [hinit]
    exact List.getLast?_concat init
  have hps : pyStrip s = s := pyStrip_eq_self hh rfl hlast rfl
  have hEs : extractJson (pyStrip s) = some s := by
    rw [hps]
    have hW := extractJson_wrap [] s [] (by simpa using hnb) (by simp) hh hcl hne
    simp only [List.nil_append, List.append_nil] at hW
    rw [hW, hrc]
  have hEf : extractJson (pyStrip (fencedWrap s)) = some s := by
    have hps2 : pyStrip (fencedWrap s) = fencedWrap s := by
      refine pyStrip_eq_self (c := '`') (d := '`') rfl rfl ?_ rfl
      show (fencedWrap s).getLast? = some '`'
      unfold fencedWrap
      rw [show ("\n```".data : List Char) = ['\n', '`', '`'] ++ ['`'] from rfl]
      exact getLast?_mid _ _ _ _
    rw [hps2]
    simp only [extractJson, fenceSearch_fenced s hnb hh, hps, hrc]
  have hEp : extractJson (pyStrip (prosedWrap s)) = some s := by
    have hps2 : pyStrip (prosedWrap s) = prosedWrap s := by
      refine pyStrip_eq_self (c := 'H') (d := '.') rfl rfl ?_ rfl
      show (prosedWrap s).getLast? = some '.'
      unfold prosedWrap
      rw [show ("\nThanks.".data : List Char) = "\nThanks".data ++ ['.'] from rfl]
      exact getLast?_mid _ _ _ _
    rw [hps2]
    have hnb2 : '`' ∉ "Here is the JSON:\n".data ++ s ++ "\nThanks.".data := by
      intro hm
      rcases List.mem_append.mp hm with hm2 | hm2
      · rcases List.mem_append.mp hm2 with hm3 | hm3
        · exact absurd hm3 (by decide)
        · exact hnb hm3
      · exact absurd hm2 (by decide)
    have hW := extractJson_wrap "Here is the JSON:\n".data s "\nThanks.".data hnb2
      (by decide) hh hcl hne
    show extractJson ("Here is the JSON:\n".data ++ s ++ "\nThanks.".data) = some s
    rw [hW, hrc]
  have hEc : extractJson (pyStrip (commentedWrap s)) = some s := by
    have hps2 : pyStrip (commentedWrap s) = commentedWrap s := by
      refine pyStrip_eq_self (c := '/') (d := 'd') rfl rfl ?_ rfl
      show (commentedWrap s).getLast? = some 'd'
      unfold commentedWrap
      rw [show (" // end".data : List Char) = " // en".data ++ ['d'] from rfl]
      exact getLast?_mid _ _ _ _
    rw [hps2]
    have hnb2 : '`' ∉ "// model output\n".data ++ s ++ " // end".data := by
      intro hm
      rcases List.mem_append.mp hm with hm2 | hm2
      · rcases List.mem_append.mp hm2 with hm3 | hm3
        · exact absurd hm3 (by decide)
        · exact hnb hm3
      · exact absurd hm2 (by decide)
    have hW := extractJson_wrap "// model output\n".data s " // end".data hnb2
      (by decide) hh hcl hne
    show extractJson ("// model output\n".data ++ s ++ " // end".data) = some s
    rw [hW, hrc]
  have hET : extractJson (pyStrip (trailingCommaWrap s)) = some s := by
    have htw : trailingCommaWrap s = init ++ [',', '\x7d'] := by
      unfold trailingCommaWrap
      rw [hinit, List.dropLast_concat]
    have hhi : (init ++ [',', '\x7d']).head? = some '\x7b' := by
      cases init with
      | nil =>
        rw [hinit] at hh
        simp at hh
      | cons a t =>
        have ha : a = '\x7b' := by
          rw [hinit] at hh
          simpa using hh
        simp [ha]
    have h0 : findCloseGo (init ++ ['\x7d']) 0 0 = some (0 + init.length) := by
      rw [← hinit, hcl0]
      congr 1
      rw [hinit]
      simp
    have hcl2 : findClose (init ++ [',', '\x7d']) =
        some ((init ++ [',', '\x7d']).length - 1) := by
      rw [show findClose (init ++ [',', '\x7d']) =
          findCloseGo (init ++ [',', '\x7d']) 0 0 from rfl,
        findCloseGo_insert init 0 0 h0]
      congr 1
      simp
    have hnb3 : '`' ∉ init ++ [',', '\x7d'] := by
      intro hm
      rcases List.mem_append.mp hm with hm2 | hm2
      · exact hnb (by rw [hinit]; exact List.mem_append.mpr (Or.inl hm2))
      · exact absurd hm2 (by decide)
    have hst2 : pyStrip (init ++ [',', '\x7d']) = init ++ [',', '\x7d'] := by
      refine pyStrip_eq_self (c := '\x7b') (d := '\x7d') hhi rfl ?_ rfl
      rw [show init ++ [',', '\x7d'] = init ++ [','] ++ ['\x7d'] from by simp]
      exact List.getLast?_concat _
    have hW := extractJson_wrap [] (init ++ [',', '\x7d']) [] (by simpa using hnb3)
      (by simp) hhi hcl2 (by simp)
    simp only [List.nil_append, List.append_nil] at hW
    have hrc2 : removeComments (init ++ [',', '\x7d']) = s := by
      have hrl2 : rlc (init ++ [',', '\x7d']) = init ++ [',', '\x7d'] :=
        rlcGo_insert init (by rw [← hinit]; exact hrl)
      have hrb2 : rbc (init ++ [',', '\x7d']) = init ++ [',', '\x7d'] :=
        rbcGo_insert init (by rw [← hinit]; exact hrb)
      have hst3 : stc (init ++ [',', '\x7d']) = init ++ ['\x7d'] :=
        stcGo_insert init (by rw [← hinit]; exact hst)
      unfold removeComments
      rw [show rlc (init ++ [',', '\x7d']) = init ++ [',', '\x7d'] from hrl2,
        show rbc (init ++ [',', '\x7d']) = init ++ [',', '\x7d'] from hrb2,
        show stc (init ++ [',', '\x7d']) = init ++ ['\x7d'] from hst3, ← hinit]
    rw [htw, hst2, hW, hrc2]
  exact ⟨coreOf_parseResponse_congr (hEf.trans hEs.symm),
    coreOf_parseResponse_congr (hEc.trans hEs.symm),
    coreOf_parseResponse_congr (hET.trans hEs.symm),
    coreOf_parseResponse_congr (hEp.trans hEs.symm)⟩

/-- C5 counterexample: the round-trip does not hold for every JSON object.
For the valid object `{"a":"}"}` — a brace inside a string literal — the
bare response fails to parse (the depth count cuts the text at the `}`
inside the string) while the fenced variant parses successfully, so the two
results differ; and even for a perfectly plain object such as `{"a":1}` the
full `ExtractionResult`s of the fenced and bare responses differ in their
`raw_response` diagnostic, which stores the original response verbatim. -/
theorem noisy_parse_not_identical :
    (parseResponse (fencedWrap "\x7b\"a\":\"\x7d\"\x7d".data)).success = true ∧
    (parseResponse "\x7b\"a\":\"\x7d\"\x7d".data).success = false ∧
    (parseResponse (fencedWrap "\x7b\"a\":1\x7d".data)).raw_response ≠
      (parseResponse "\x7b\"a\":1\x7d".data).raw_response := by
  exact ⟨rfl, rfl, by decide⟩

/-- Witness for C5 amended: a clean receipt object, checked against all
four noisy wrappings. -/
theorem parse_variants_agree_on_clean_json_witness :
    (let s := "\x7b\"merchant\":\"Carrefour\",\"total_amount\":1.5\x7d".data
     cleanJson s ∧
       (coreOf (parseResponse (fencedWrap s)) = coreOf (parseResponse s) ∧
        coreOf (parseResponse (commentedWrap s)) = coreOf (parseResponse s) ∧
        coreOf (parseResponse (trailingCommaWrap s)) = coreOf (parseResponse s) ∧
        coreOf (parseResponse (prosedWrap s)) = coreOf (parseResponse s))) :=
  ⟨by decide, parse_variants_agree_on_clean_json _ (by decide)⟩

end Kash